import Mathlib

/-!
The column-mapping evaluator and the batched insertion sink of db-migrate.

A shallow embedding of `src/csv.go` (`CSVMigration.migrate`) and `src/mssql.go`
(`MSInsert.bulkInsert`, `MSInsert.insert`, `MSInsert.close`), with the command-line
flags of `src/main.go` as an explicit `Flags` record.

Go strings are byte sequences, so `len`, slicing and prefix tests are modelled on
lists of bytes.  Calls into libraries outside the repository whose results the
program only passes on (`md5.Sum`, `regexp`, `strconv.ParseFloat`, `time.Parse`)
are fields of a `Lib` record: the general theorems hold for every `Lib`, and the
runs on concrete inputs use the instance `sampleLib`.
The database is a log of the calls that succeeded together with an oracle that
says which calls fail.
-/

deriving instance DecidableEq for Except

namespace DbMigrate

/-! ## Go strings -/

/-- A Go string: a sequence of bytes. -/
abbrev GoString := List UInt8

/-- The Go string literal with the given text (UTF-8 encoded). -/
def go (s : String) : GoString := s.toList.flatMap String.utf8EncodeChar

/-- The slice expression `s[lo:hi]`; `none` stands for the run-time panic
"slice bounds out of range". -/
def slice (s : GoString) (lo hi : Int) : Option GoString :=
  if 0 ≤ lo ∧ lo ≤ hi ∧ hi ≤ (s.length : Int) then
    some ((s.drop lo.toNat).take (hi.toNat - lo.toNat))
  else none

namespace strings

/-- Go `strings.HasPrefix`. -/
def HasPrefix (s pre : GoString) : Bool := pre.isPrefixOf s

/-- Go `strings.HasSuffix`. -/
def HasSuffix (s suf : GoString) : Bool := suf.reverse.isPrefixOf s.reverse

/-- Go `strings.Contains`. -/
def Contains : GoString → GoString → Bool
  | [], sub => sub.isEmpty
  | c :: cs, sub => sub.isPrefixOf (c :: cs) || Contains cs sub

/-- Go `strings.Split(s, sep)` for a separator `sep` of one byte. -/
def Split (s : GoString) (sep : UInt8) : List GoString :=
  match s with
  | [] => [[]]
  | c :: cs =>
    if c = sep then [] :: Split cs sep
    else
      match Split cs sep with
      | [] => [[c]]
      | h :: t => (c :: h) :: t

/-- Go `strings.Join(parts, sep)` for a separator of one byte. -/
def Join (parts : List GoString) (sep : UInt8) : GoString :=
  List.intercalate [sep] parts

/-- The one-byte white space of `unicode.IsSpace`: tab, line feed, vertical tab,
form feed, carriage return, space. -/
def space1 (b : UInt8) : Bool :=
  (0x09 ≤ b.toNat && b.toNat ≤ 0x0D) || b.toNat = 0x20

/-- The two-byte white space of `unicode.IsSpace`: U+0085 and U+00A0. -/
def space2 (b0 b1 : UInt8) : Bool :=
  b0.toNat = 0xC2 && (b1.toNat = 0x85 || b1.toNat = 0xA0)

/-- The three-byte white space of `unicode.IsSpace`: U+1680, U+2000 to U+200A,
U+2028, U+2029, U+202F, U+205F, U+3000. -/
def space3 (b0 b1 b2 : UInt8) : Bool :=
  (b0.toNat = 0xE1 && b1.toNat = 0x9A && b2.toNat = 0x80) ||
  (b0.toNat = 0xE2 && b1.toNat = 0x80 &&
    ((0x80 ≤ b2.toNat && b2.toNat ≤ 0x8A) || b2.toNat = 0xA8 || b2.toNat = 0xA9
      || b2.toNat = 0xAF)) ||
  (b0.toNat = 0xE2 && b1.toNat = 0x81 && b2.toNat = 0x9F) ||
  (b0.toNat = 0xE3 && b1.toNat = 0x80 && b2.toNat = 0x80)

/-- Go `strings.TrimLeftFunc(s, unicode.IsSpace)`: drop leading white-space runes. -/
def TrimLeftSpace : GoString → GoString
  | [] => []
  | b0 :: t0 =>
    if space1 b0 then TrimLeftSpace t0
    else
      match t0 with
      | [] => [b0]
      | b1 :: t1 =>
        if space2 b0 b1 then TrimLeftSpace t1
        else
          match t1 with
          | [] => [b0, b1]
          | b2 :: t2 =>
            if space3 b0 b1 b2 then TrimLeftSpace t2 else b0 :: b1 :: b2 :: t2

/-- Trailing white-space runes dropped from a string given back to front. -/
def TrimRightSpaceRev : GoString → GoString
  | [] => []
  | b0 :: t0 =>
    if space1 b0 then TrimRightSpaceRev t0
    else
      match t0 with
      | [] => [b0]
      | b1 :: t1 =>
        if space2 b1 b0 then TrimRightSpaceRev t1
        else
          match t1 with
          | [] => [b0, b1]
          | b2 :: t2 =>
            if space3 b2 b1 b0 then TrimRightSpaceRev t2 else b0 :: b1 :: b2 :: t2

/-- Go `strings.TrimRightFunc(s, unicode.IsSpace)`. -/
def TrimRightSpace (s : GoString) : GoString := (TrimRightSpaceRev s.reverse).reverse

/-- Go `strings.TrimSpace`. -/
def TrimSpace (s : GoString) : GoString := TrimRightSpace (TrimLeftSpace s)

end strings

/-! ## Values, configuration and library calls -/

/-- A Go `interface{}` value as it occurs in a row of mapped values: `nil`, a string,
a `float64` (of an abstract type `F`), a `time.Time` (of an abstract type `T`), or a
configured scalar of another type. -/
inductive Value (F T : Type) where
  | null
  | str (s : GoString)
  | float64 (x : F)
  | time (t : T)
  | int (n : Int)
  | bool (b : Bool)
  deriving DecidableEq, Repr

/-- The struct `ColumnMapping` of `main.go`. -/
structure ColumnMapping (F T : Type) where
  source : Value F T
  target : GoString
  deriving DecidableEq, Repr

/-- The command-line flags of `main.go` that the evaluator and the sink read. -/
structure Flags where
  /-- Flag `-max20`. -/
  max20 : Bool
  /-- Flag `-date-columns`. -/
  dateFields : GoString
  /-- Flag `-bulk-limit`, an `int64`. -/
  bulkLimit : Int
  /-- Flag `-exit-on-error`. -/
  exitOnError : Bool
  deriving DecidableEq, Repr

/-- The library calls whose result the program passes on. -/
structure Lib (F T : Type) where
  /-- The call `md5.Sum`: a `[16]byte`. -/
  md5Sum : GoString → List UInt8
  /-- An MD5 digest has 16 bytes. -/
  md5Sum_length : ∀ s, (md5Sum s).length = 16
  /-- The call `regexp.MustCompile(pattern)`, `none` when it panics; the compiled
  expression is given by its `ReplaceAllString(src, repl)`. -/
  MustCompile : GoString → Option (GoString → GoString → GoString)
  /-- The call `strconv.ParseFloat(s, 64)`, `none` when it returns an error. -/
  ParseFloat : GoString → Option F
  /-- The call `time.Parse("2006-01-02", s)`, `none` when it returns an error. -/
  timeParse : GoString → Option T

/-- The run-time panics of the program. -/
inductive Panic where
  /-- Slice bounds out of range. -/
  | sliceBounds
  /-- Index out of range. -/
  | indexOutOfRange
  /-- The call `log.Panicln("unable to find column", columnName)`. -/
  | unknownColumn (columnName : GoString)
  /-- The call `log.Panicln("need 3 parameters for replace: column, old, new")`. -/
  | replaceArity
  /-- A panic of `regexp.MustCompile`. -/
  | regexpCompile (pattern : GoString)
  /-- A failed type assertion `v.(string)`. -/
  | typeAssertion
  /-- The call `log.Panicln(err)` on an error of `csv.Reader.Read`. -/
  | readError
  deriving DecidableEq, Repr

/-! ## The column-mapping evaluator (`csv.go`) -/

/-- The map `nameIndex` of `CSVMigration`: the entry found first is the one stored
last. -/
abbrev NameIndex := List (GoString × Nat)

/-- The loop `for i, v := range header { c.nameIndex[v] = Int{exists: true, value: i} }`,
started at index `i`. -/
def fillNameIndex (m : NameIndex) (i : Nat) : List GoString → NameIndex
  | [] => m
  | v :: rest => fillNameIndex ((v, i) :: m) (i + 1) rest

/-- The name index built on reading the header. -/
def makeNameIndex (header : List GoString) : NameIndex := fillNameIndex [] 0 header

/-- The map read `c.nameIndex[columnName]`; `none` is the zero value, whose `exists`
is false. -/
def NameIndex.get (m : NameIndex) (columnName : GoString) : Option Nat :=
  match m with
  | [] => none
  | (k, i) :: rest => if k = columnName then some i else NameIndex.get rest columnName

/-- The steps `index = c.nameIndex[columnName]`, panic unless `index.exists`, then
`record[index.value]`. -/
def field (nameIndex : NameIndex) (record : List GoString) (columnName : GoString) :
    Except Panic GoString :=
  match nameIndex.get columnName with
  | none => .error (.unknownColumn columnName)
  | some i =>
    match record[i]? with
    | none => .error .indexOutOfRange
    | some f => .ok f

/-- The loop of the `hash(` branch: `value += record[index.value]` for every
trimmed name of `cs`. -/
def hashFields (nameIndex : NameIndex) (record : List GoString) :
    List GoString → GoString → Except Panic GoString
  | [], value => .ok value
  | cc :: cs, value =>
    match field nameIndex record (strings.TrimSpace cc) with
    | .error p => .error p
    | .ok f => hashFields nameIndex record cs (value ++ f)

/-- The lowercase hexadecimal digit of a number below 16. -/
def hexDigit (n : Nat) : UInt8 :=
  if n < 10 then UInt8.ofNat (48 + n) else UInt8.ofNat (87 + n)

/-- The verb `%x` of `fmt.Sprintf` on a byte array: two lowercase hexadecimal digits
for each byte. -/
def hexEncode (bs : List UInt8) : GoString :=
  bs.flatMap (fun b => [hexDigit (b.toNat / 16), hexDigit (b.toNat % 16)])

/-- Whether a byte is one of `0` to `9` or `a` to `f`. -/
def isLowerHex (b : UInt8) : Bool :=
  (48 ≤ b.toNat && b.toNat ≤ 57) || (97 ≤ b.toNat && b.toNat ≤ 102)

/-- The raw field of the column `col` in a record: the field at the position that the
name index of the header holds for `col` (the last position of `col` in the header);
the empty text when there is none. -/
def rawField (header record : List GoString) (col : GoString) : GoString :=
  match field (makeNameIndex header) record col with
  | .ok f => f
  | .error _ => []

/-- The loop of the `concat` branch. -/
def concatParts (nameIndex : NameIndex) (record : List GoString) :
    List GoString → GoString → Except Panic GoString
  | [], value => .ok value
  | cc :: cs, value =>
    let columnName := strings.TrimSpace cc
    if strings.HasPrefix columnName (go "\x27") && strings.HasSuffix columnName (go "\x27") then
      match slice columnName 1 ((columnName.length : Int) - 1) with
      | none => .error .sliceBounds
      | some lit => concatParts nameIndex record cs (value ++ lit)
    else
      match field nameIndex record columnName with
      | .error p => .error p
      | .ok f => concatParts nameIndex record cs (value ++ f)

/-- The text `value` that `migrate` computes for the column name `columnName` (the
mapping source without its leading `$`) before it is trimmed (`csv.go`, lines 68 to 133). -/
def rawValue {F T : Type} (lib : Lib F T) (flags : Flags) (nameIndex : NameIndex)
    (record : List GoString) (columnName : GoString) : Except Panic GoString :=
  if strings.HasPrefix columnName (go "hash(") then
    match slice columnName 5 ((columnName.length : Int) - 1) with
    | none => .error .sliceBounds
    | some inner =>
      match hashFields nameIndex record (strings.Split inner 44) [] with
      | .error p => .error p
      | .ok value =>
        match slice (hexEncode (lib.md5Sum value)) 0 20 with
        | none => .error .sliceBounds
        | some h => .ok h
  else if strings.HasPrefix columnName (go "replace") then
    match slice columnName 8 ((columnName.length : Int) - 1) with
    | none => .error .sliceBounds
    | some inner =>
      match strings.Split inner 44 with
      | [c0, old, new] =>
        match field nameIndex record (strings.TrimSpace c0) with
        | .error p => .error p
        | .ok value =>
          match lib.MustCompile old with
          | none => .error (.regexpCompile old)
          | some re => .ok (re value new)
      | _ => .error .replaceArity
  else if strings.HasPrefix columnName (go "concat") then
    match slice columnName 7 ((columnName.length : Int) - 1) with
    | none => .error .sliceBounds
    | some inner => concatParts nameIndex record (strings.Split inner 44) []
  else
    match field nameIndex record columnName with
    | .error p => .error p
    | .ok value =>
      if flags.max20 then
        if (columnName = go "RECALL_LOG_ID" || columnName = go "RECALL_TRACE_ID")
            && decide (value.length > 20) then
          match slice value ((value.length : Int) - 20) value.length with
          | none => .error .sliceBounds
          | some v => .ok v
        else .ok value
      else .ok value

/-- The post-processing of a computed text (`csv.go`, lines 135 to 148): trim; `nil`
when empty; a `float64` when the text contains `E` and `strconv.ParseFloat` accepts
it; else the text. -/
def postProcess {F T : Type} (lib : Lib F T) (value : GoString) : Value F T :=
  let value := strings.TrimSpace value
  if value = [] then .null
  else
    if strings.Contains value (go "E") then
      match lib.ParseFloat value with
      | some v => .float64 v
      | none => .str value
    else .str value

/-- The value `values[i]` that `migrate` computes from the mapping source
`cm.source` and one record of header width (`csv.go`, lines 65 to 154). -/
def evalSource {F T : Type} (lib : Lib F T) (flags : Flags) (nameIndex : NameIndex)
    (record : List GoString) (source : Value F T) : Except Panic (Value F T) :=
  match source with
  | .str v =>
    match slice v 0 1 with
    | none => .error .sliceBounds
    | some p =>
      if p = go "$" then
        match rawValue lib flags nameIndex record (v.drop 1) with
        | .error e => .error e
        | .ok value => .ok (postProcess lib value)
      else .ok (.str v)
  | v => .ok v

/-- The loop `for i, cm := range c.columnMappings` that fills `values`. -/
def evalMappings {F T : Type} (lib : Lib F T) (flags : Flags) (nameIndex : NameIndex)
    (record : List GoString) : List (ColumnMapping F T) → Except Panic (List (Value F T))
  | [] => .ok []
  | cm :: cms =>
    match evalSource lib flags nameIndex record cm.source with
    | .error e => .error e
    | .ok v =>
      match evalMappings lib flags nameIndex record cms with
      | .error e => .error e
      | .ok vs => .ok (v :: vs)

/-! ## The database and the insertion sink (`mssql.go`) -/

/-- The argument of `db.Prepare`. -/
inductive Query where
  /-- The statement `mssql.CopyIn(tableName, options, columnNames...)`. -/
  | copyIn (tableName : GoString) (columnNames : List GoString)
  /-- An SQL text. -/
  | sql (text : GoString)
  deriving DecidableEq, Repr

/-- A call made on the database, a transaction or a prepared statement. -/
inductive Event (F T : Type) where
  /-- The call `db.Begin()`. -/
  | begin
  /-- The call `db.Prepare(query)`. -/
  | prepare (query : Query)
  /-- The call `stmt.Exec(args...)`; on a bulk-copy statement, no argument means
  "send the rows given so far". -/
  | exec (args : List (Value F T))
  /-- The call `stmt.Close()`. -/
  | stmtClose
  /-- The call `tnx.Commit()`. -/
  | commit
  deriving DecidableEq, Repr

/-- The database: the calls that succeeded, oldest first, and an oracle that says,
from those calls and the call being made, whether the call fails. -/
structure DB (F T : Type) where
  log : List (Event F T)
  fails : List (Event F T) → Event F T → Bool

/-- One call on the database: `none` when it returns an error, else the database
with the call recorded. -/
def DB.call {F T : Type} (db : DB F T) (e : Event F T) : Option (DB F T) :=
  if db.fails db.log e then none else some { db with log := db.log ++ [e] }

/-- A database on which no call ever fails. -/
def DB.NeverFails {F T : Type} (db : DB F T) : Prop := ∀ l e, db.fails l e = false

/-- The errors that the sink returns. -/
inductive Err (F T : Type) where
  /-- The error of a failed database call. -/
  | db (e : Event F T)
  /-- The error of `time.Parse` on the given text. -/
  | timeParse (s : GoString)
  deriving DecidableEq, Repr

/-- How a call of the program ends: it returns `nil`, returns an error, or panics. -/
inductive Outcome (F T : Type) where
  | ok
  | error (e : Err F T)
  | panic (p : Panic)
  deriving DecidableEq, Repr

/-- The struct `MSInsert`; a handle that is not `nil` is `some ()`. -/
structure MSInsert (F T : Type) where
  db : DB F T
  tnx : Option Unit
  tableName : GoString
  columnMappings : List (ColumnMapping F T)
  stmt : Option Unit
  sql : GoString
  columnNames : Option (List GoString)
  bulkCount : Int

/-- The sink that `main.go` creates: `&MSInsert{db, tableName, columnMappings}`. -/
def MSInsert.new {F T : Type} (db : DB F T) (tableName : GoString)
    (columnMappings : List (ColumnMapping F T)) : MSInsert F T :=
  { db := db, tnx := none, tableName := tableName, columnMappings := columnMappings,
    stmt := none, sql := [], columnNames := none, bulkCount := 0 }

/-- The increment `m.bulkCount++` of an `int64`. -/
def incr64 (n : Int) : Int :=
  if n + 1 < 9223372036854775808 then n + 1 else n + 1 - 18446744073709551616

/-- The first step of `bulkInsert` and of `insert`: fill `m.columnNames` from the
targets of the column mappings when it is `nil`. -/
def MSInsert.initColumnNames {F T : Type} (m : MSInsert F T) : MSInsert F T :=
  match m.columnNames with
  | none => { m with columnNames := some (m.columnMappings.map ColumnMapping.target) }
  | some _ => m

/-- Whether `bulkInsert` date-parses the values of the column `columnName`
(`mssql.go`, lines 57 to 73). -/
def isDateColumn (flags : Flags) (columnName : GoString) : Bool :=
  if flags.dateFields.length ≠ 0 then
    (strings.Split flags.dateFields 44).any
      (fun dateColumn => decide (strings.TrimSpace dateColumn = columnName))
  else strings.Contains columnName (go "date")

/-- The loop "convert date fields" of `bulkInsert` over the values from index `i` on:
the values after the loop, or the way the loop leaves `bulkInsert`. -/
def convertDates {F T : Type} (lib : Lib F T) (flags : Flags) (columnNames : List GoString) :
    Nat → List (Value F T) → Except (Outcome F T) (List (Value F T))
  | _, [] => .ok []
  | i, .null :: vs =>
    match convertDates lib flags columnNames (i + 1) vs with
    | .error o => .error o
    | .ok ws => .ok (.null :: ws)
  | i, v :: vs =>
    match columnNames[i]? with
    | none => .error (.panic .indexOutOfRange)
    | some columnName =>
      if isDateColumn flags columnName then
        match v with
        | .str s =>
          match lib.timeParse s with
          | none => .error (.error (.timeParse s))
          | some t =>
            match convertDates lib flags columnNames (i + 1) vs with
            | .error o => .error o
            | .ok ws => .ok (.time t :: ws)
        | _ => .error (.panic .typeAssertion)
      else
        match convertDates lib flags columnNames (i + 1) vs with
        | .error o => .error o
        | .ok ws => .ok (v :: ws)

/-- The block `if m.stmt == nil { ... }` of `bulkInsert`: begin a transaction and
prepare the bulk copy. -/
def MSInsert.bulkOpen {F T : Type} (m : MSInsert F T) : MSInsert F T × Outcome F T :=
  match m.stmt with
  | some _ => (m, .ok)
  | none =>
    match m.db.call .begin with
    | none => ({ m with tnx := none }, .error (.db .begin))
    | some db =>
      let m := { m with db := db, tnx := some () }
      let e : Event F T := .prepare (.copyIn m.tableName (m.columnNames.getD []))
      match m.db.call e with
      | none => ({ m with stmt := none }, .error (.db e))
      | some db => ({ m with db := db, stmt := some () }, .ok)

/-- The block `if m.bulkCount >= *bulkLimit { ... }` of `bulkInsert`. -/
def MSInsert.bulkFlush {F T : Type} (flags : Flags) (m : MSInsert F T) :
    MSInsert F T × Outcome F T :=
  if m.bulkCount ≥ flags.bulkLimit then
    match m.db.call (.exec []) with
    | none => (m, .error (.db (.exec [])))
    | some db =>
      let m := { m with db := db }
      match m.db.call .stmtClose with
      | none => (m, .error (.db .stmtClose))
      | some db =>
        let m := { m with db := db }
        match m.db.call .commit with
        | none => (m, .error (.db .commit))
        | some db => ({ m with db := db, bulkCount := 0, tnx := none, stmt := none }, .ok)
  else (m, .ok)

/-- The method `MSInsert.bulkInsert`: the sink after the call and how the call ended. -/
def MSInsert.bulkInsert {F T : Type} (lib : Lib F T) (flags : Flags) (m : MSInsert F T)
    (values : List (Value F T)) : MSInsert F T × Outcome F T :=
  let m := m.initColumnNames
  match m.bulkOpen with
  | (m, .error e) => (m, .error e)
  | (m, .panic p) => (m, .panic p)
  | (m, .ok) =>
    let m := { m with bulkCount := incr64 m.bulkCount }
    match convertDates lib flags (m.columnNames.getD []) 0 values with
    | .error o => (m, o)
    | .ok values =>
      match m.db.call (.exec values) with
      | none => (m, .error (.db (.exec values)))
      | some db => MSInsert.bulkFlush flags { m with db := db }

/-- The method `MSInsert.bulkCommit`. -/
def MSInsert.bulkCommit {F T : Type} (m : MSInsert F T) : MSInsert F T × Outcome F T :=
  match m.db.call (.exec []) with
  | none => (m, .error (.db (.exec [])))
  | some db => ({ m with db := db }, .ok)

/-- The text of the statement that `insert` prepares; `none` stands for the panic of
`vh[:len(vh)-1]` when there is no column. -/
def insertSQL (tableName : GoString) (columnNames : List GoString) : Option GoString :=
  let vh := (List.replicate columnNames.length (go "?,")).flatten
  match slice vh 0 ((vh.length : Int) - 1) with
  | none => none
  | some vh =>
    some (go "INSERT INTO " ++ tableName ++ go " (" ++ strings.Join columnNames 44
      ++ go ") VALUES (" ++ vh ++ go ")")

/-- The method `MSInsert.insert`. -/
def MSInsert.insert {F T : Type} (flags : Flags) (m : MSInsert F T)
    (values : List (Value F T)) : MSInsert F T × Outcome F T :=
  let m := m.initColumnNames
  let opened : MSInsert F T × Outcome F T :=
    match m.stmt with
    | some _ => (m, .ok)
    | none =>
      match insertSQL m.tableName (m.columnNames.getD []) with
      | none => (m, .panic .sliceBounds)
      | some text =>
        let m := { m with sql := text }
        match m.db.call (.prepare (.sql text)) with
        | none => ({ m with stmt := none }, .error (.db (.prepare (.sql text))))
        | some db => ({ m with db := db, stmt := some () }, .ok)
  match opened with
  | (m, .error e) => (m, .error e)
  | (m, .panic p) => (m, .panic p)
  | (m, .ok) =>
    match m.db.call (.exec values) with
    | none => if flags.exitOnError then (m, .error (.db (.exec values))) else (m, .ok)
    | some db => ({ m with db := db }, .ok)

/-- The method `MSInsert.close`. -/
def MSInsert.close {F T : Type} (m : MSInsert F T) : MSInsert F T × Outcome F T :=
  let closed : MSInsert F T × Outcome F T :=
    match m.stmt with
    | none => (m, .ok)
    | some _ =>
      let committed : MSInsert F T × Outcome F T :=
        if m.bulkCount ≠ 0 then m.bulkCommit else (m, .ok)
      match committed with
      | (m, .error e) => (m, .error e)
      | (m, .panic p) => (m, .panic p)
      | (m, .ok) =>
        match m.db.call .stmtClose with
        | none => (m, .error (.db .stmtClose))
        | some db => ({ m with db := db }, .ok)
  match closed with
  | (m, .error e) => (m, .error e)
  | (m, .panic p) => (m, .panic p)
  | (m, .ok) =>
    match m.tnx with
    | none => (m, .ok)
    | some _ =>
      match m.db.call .commit with
      | none => (m, .error (.db .commit))
      | some db => ({ m with db := db }, .ok)

/-- A run of `bulkInsert` calls, one for each row, that stops at the first call
which does not return `nil`. -/
def MSInsert.bulkInsertAll {F T : Type} (lib : Lib F T) (flags : Flags) :
    MSInsert F T → List (List (Value F T)) → MSInsert F T × Outcome F T
  | m, [] => (m, .ok)
  | m, row :: rows =>
    match m.bulkInsert lib flags row with
    | (m, .ok) => MSInsert.bulkInsertAll lib flags m rows
    | r => r

/-! ## The row source and `CSVMigration.migrate` (`csv.go`) -/

/-- What `csv.Reader.Read` does with the field count of a record when the field
`FieldsPerRecord` is `fpr`: the new `FieldsPerRecord`, and whether `Read` returns
the error `ErrFieldCount`.  "If FieldsPerRecord is positive, Read requires each
record to have the given number of fields.  If FieldsPerRecord is 0, Read sets it to
the number of fields in the first record.  If FieldsPerRecord is negative, no check
is made." -/
def checkFieldCount (fpr : Int) (record : List GoString) : Int × Bool :=
  if fpr > 0 then (fpr, decide ((record.length : Int) ≠ fpr))
  else if fpr = 0 then ((record.length : Int), false)
  else (fpr, false)

/-- A `csv.Reader` on a stream of well-formed records. -/
structure Reader where
  FieldsPerRecord : Int
  input : List (List GoString)
  deriving DecidableEq, Repr

/-- The call `csv.NewReader`: `FieldsPerRecord` is zero. -/
def NewReader (input : List (List GoString)) : Reader :=
  { FieldsPerRecord := 0, input := input }

/-- The result of `csv.Reader.Read`. -/
inductive ReadResult where
  /-- The error `io.EOF`. -/
  | eof
  /-- A record and no error. -/
  | record (record : List GoString)
  /-- Another error. -/
  | error
  deriving DecidableEq, Repr

/-- The method `csv.Reader.Read`. -/
def Reader.Read (r : Reader) : Reader × ReadResult :=
  match r.input with
  | [] => (r, .eof)
  | record :: rest =>
    match checkFieldCount r.FieldsPerRecord record with
    | (fpr, true) => ({ FieldsPerRecord := fpr, input := rest }, .error)
    | (fpr, false) => ({ FieldsPerRecord := fpr, input := rest }, .record record)

/-- The loop of `CSVMigration.migrate` on a reader with the given `FieldsPerRecord`
and records still to read; `header` is `none` until the header is read.  Every turn
makes one call of `Read`, which consumes the first record.  The result is the sink
after the loop and how `migrate` ended. -/
def migrateLoop {F T : Type} (lib : Lib F T) (flags : Flags)
    (columnMappings : List (ColumnMapping F T)) (bulk : Bool) :
    Int → Option (List GoString) → MSInsert F T → List (List GoString) →
      MSInsert F T × Outcome F T
  | _, _, insertor, [] => (insertor, .ok)
  | fpr, header, insertor, first :: rest =>
    match (Reader.Read { FieldsPerRecord := fpr, input := first :: rest }) with
    | (_, .eof) => (insertor, .ok)
    | (_, .error) => (insertor, .panic .readError)
    | (r, .record record) =>
      match header with
      | none =>
        migrateLoop lib flags columnMappings bulk r.FieldsPerRecord (some record) insertor rest
      | some header =>
        if record.length ≠ header.length then
          migrateLoop lib flags columnMappings bulk r.FieldsPerRecord (some header) insertor rest
        else
          match evalMappings lib flags (makeNameIndex header) record columnMappings with
          | .error p => (insertor, .panic p)
          | .ok values =>
            match (if bulk then insertor.bulkInsert lib flags values
                   else insertor.insert flags values) with
            | (insertor, .ok) =>
              migrateLoop lib flags columnMappings bulk r.FieldsPerRecord (some header)
                insertor rest
            | r => r

/-- The struct `CSVMigration`. -/
structure CSVMigration (F T : Type) where
  insertor : MSInsert F T
  r : Reader
  columnMappings : List (ColumnMapping F T)

/-- The method `CSVMigration.migrate`. -/
def CSVMigration.migrate {F T : Type} (lib : Lib F T) (flags : Flags) (c : CSVMigration F T)
    (bulk : Bool) : MSInsert F T × Outcome F T :=
  migrateLoop lib flags c.columnMappings bulk c.r.FieldsPerRecord none c.insertor c.r.input

/-! ## Batches of a row stream -/

/-- The rows cut into consecutive batches of `t` rows; the last batch holds the rest. -/
def chunks {α : Type} (t : Nat) (rows : List α) : List (List α) :=
  if 0 < t ∧ 0 < rows.length then rows.take t :: chunks t (rows.drop t) else []
termination_by rows.length
decreasing_by
  rename_i h
  simp only [List.length_drop]
  omega

/-- The calls that open a batch and hand its rows to the bulk copy. -/
def openCalls {F T : Type} (tableName : GoString) (columnNames : List GoString)
    (batch : List (List (Value F T))) : List (Event F T) :=
  .begin :: .prepare (.copyIn tableName columnNames) :: batch.map Event.exec

/-- The calls of a flush: send the rows, close the statement, commit. -/
def flushCalls {F T : Type} : List (Event F T) := [.exec [], .stmtClose, .commit]

/-- The calls of a batch that has been committed. -/
def batchCalls {F T : Type} (tableName : GoString) (columnNames : List GoString)
    (batch : List (List (Value F T))) : List (Event F T) :=
  openCalls tableName columnNames batch ++ flushCalls

/-- The number of `Commit` calls in a log. -/
def commits {F T : Type} (log : List (Event F T)) : Nat :=
  log.countP (fun e => match e with | .commit => true | _ => false)

/-- The state of a batched sink made by `MSInsert.new db table cms` that holds `c`
rows not yet committed, after the calls `l` on the database. -/
structure MSInsert.Pending {F T : Type} (db : DB F T) (table : GoString)
    (cms : List (ColumnMapping F T)) (c : Nat) (l : List (Event F T))
    (m : MSInsert F T) : Prop where
  fails : m.db.fails = db.fails
  log : m.db.log = l
  tableName : m.tableName = table
  columnMappings : m.columnMappings = cms
  columnNames : m.columnNames = none ∨ m.columnNames = some (cms.map ColumnMapping.target)
  bulkCount : m.bulkCount = (c : Int)
  stmt : m.stmt = if c = 0 then none else some ()
  tnx : m.tnx = if c = 0 then none else some ()

/-- The calls that a batched sink with threshold `t` has made once it has accepted
`rows`: each batch of `t` rows is committed, a shorter last batch is still open. -/
def acceptedCalls {F T : Type} (tableName : GoString) (columnNames : List GoString)
    (t : Nat) (rows : List (List (Value F T))) : List (Event F T) :=
  (chunks t rows).flatMap (fun b =>
    if b.length = t then batchCalls tableName columnNames b
    else openCalls tableName columnNames b)

/-- The calls that a batched sink with threshold `t` has made once it has accepted
`rows` and is closed: every batch is committed. -/
def closedCalls {F T : Type} (tableName : GoString) (columnNames : List GoString)
    (t : Nat) (rows : List (List (Value F T))) : List (Event F T) :=
  (chunks t rows).flatMap (batchCalls tableName columnNames)


/-! ## A library instance for concrete runs -/

namespace md5

/-- The per-round shift amounts of MD5 (RFC 1321). -/
def shifts : List Nat :=
  [7, 12, 17, 22, 7, 12, 17, 22, 7, 12, 17, 22, 7, 12, 17, 22,
   5, 9, 14, 20, 5, 9, 14, 20, 5, 9, 14, 20, 5, 9, 14, 20,
   4, 11, 16, 23, 4, 11, 16, 23, 4, 11, 16, 23, 4, 11, 16, 23,
   6, 10, 15, 21, 6, 10, 15, 21, 6, 10, 15, 21, 6, 10, 15, 21]

/-- The sine-derived constants of MD5 (RFC 1321). -/
def K : List Nat :=
  [0xd76aa478, 0xe8c7b756, 0x242070db, 0xc1bdceee,
   0xf57c0faf, 0x4787c62a, 0xa8304613, 0xfd469501,
   0x698098d8, 0x8b44f7af, 0xffff5bb1, 0x895cd7be,
   0x6b901122, 0xfd987193, 0xa679438e, 0x49b40821,
   0xf61e2562, 0xc040b340, 0x265e5a51, 0xe9b6c7aa,
   0xd62f105d, 0x02441453, 0xd8a1e681, 0xe7d3fbc8,
   0x21e1cde6, 0xc33707d6, 0xf4d50d87, 0x455a14ed,
   0xa9e3e905, 0xfcefa3f8, 0x676f02d9, 0x8d2a4c8a,
   0xfffa3942, 0x8771f681, 0x6d9d6122, 0xfde5380c,
   0xa4beea44, 0x4bdecfa9, 0xf6bb4b60, 0xbebfbc70,
   0x289b7ec6, 0xeaa127fa, 0xd4ef3085, 0x04881d05,
   0xd9d4d039, 0xe6db99e5, 0x1fa27cf8, 0xc4ac5665,
   0xf4292244, 0x432aff97, 0xab9423a7, 0xfc93a039,
   0x655b59c3, 0x8f0ccc92, 0xffeff47d, 0x85845dd1,
   0x6fa87e4f, 0xfe2ce6e0, 0xa3014314, 0x4e0811a1,
   0xf7537e82, 0xbd3af235, 0x2ad7d2bb, 0xeb86d391]

/-- Rotation to the left of a 32-bit word. -/
def rotl (x c : Nat) : Nat := ((x <<< c) ||| (x >>> (32 - c))) % 4294967296

/-- The little-endian number of a byte sequence. -/
def leNat : List UInt8 → Nat
  | [] => 0
  | b :: bs => b.toNat + 256 * leNat bs

/-- The `n` little-endian bytes of a number. -/
def leBytes : Nat → Nat → List UInt8
  | 0, _ => []
  | n + 1, x => UInt8.ofNat (x % 256) :: leBytes n (x / 256)

/-- The padded message: a one bit, zero bits up to 56 modulo 64 bytes, and the length in
bits as 64 little-endian bits. -/
def pad (msg : List UInt8) : List UInt8 :=
  msg ++ [0x80] ++ List.replicate ((119 - msg.length % 64) % 64) 0
    ++ leBytes 8 ((8 * msg.length) % 18446744073709551616)

/-- The bytes cut into consecutive groups of `n` bytes, at most `fuel` groups. -/
def groups (n : Nat) : Nat → List UInt8 → List (List UInt8)
  | 0, _ => []
  | fuel + 1, bs => if bs.isEmpty then [] else bs.take n :: groups n fuel (bs.drop n)

/-- One of the 64 operations of MD5 on the state `(a, b, c, d)` with the block words `w`. -/
def step (w : List Nat) (s : Nat × Nat × Nat × Nat) (i : Nat) : Nat × Nat × Nat × Nat :=
  let (a, b, c, d) := s
  let nb := 4294967295 - b
  let nd := 4294967295 - d
  let fg : Nat × Nat :=
    if i < 16 then ((b &&& c) ||| (nb &&& d), i)
    else if i < 32 then ((d &&& b) ||| (nd &&& c), (5 * i + 1) % 16)
    else if i < 48 then (b ^^^ c ^^^ d, (3 * i + 5) % 16)
    else (c ^^^ (b ||| nd), (7 * i) % 16)
  let f := (fg.1 + a + K.getD i 0 + w.getD fg.2 0) % 4294967296
  (d, (b + rotl f (shifts.getD i 0)) % 4294967296, b, c)

/-- The state after one 64-byte block. -/
def block (s : Nat × Nat × Nat × Nat) (bs : List UInt8) : Nat × Nat × Nat × Nat :=
  let w := (groups 4 16 bs).map leNat
  let (a, b, c, d) := (List.range 64).foldl (step w) s
  ((s.1 + a) % 4294967296, (s.2.1 + b) % 4294967296, (s.2.2.1 + c) % 4294967296,
    (s.2.2.2 + d) % 4294967296)

/-- The MD5 digest of a byte sequence (RFC 1321), the function `md5.Sum` of Go. -/
def Sum (msg : List UInt8) : List UInt8 :=
  let (a, b, c, d) :=
    (groups 64 (pad msg).length (pad msg)).foldl block (0x67452301, 0xefcdab89, 0x98badcfe, 0x10325476)
  leBytes 4 a ++ leBytes 4 b ++ leBytes 4 c ++ leBytes 4 d

end md5

/-- The value of a sequence of decimal digits; `none` when a byte is not a digit or
the sequence is empty. -/
def decimal (s : GoString) : Option Nat :=
  if s = [] ∨ ¬ s.all (fun b => decide (48 ≤ b.toNat ∧ b.toNat ≤ 57)) then none
  else some (s.foldl (fun n b => 10 * n + (b.toNat - 48)) 0)

/-- A part of `strconv.ParseFloat(s, 64)`: on a text `<digits>E<digits>` whose value
is a whole number of at most 2^53, the `float64` with that value, given as the whole
number.  Other texts are outside this part. -/
def parseFloatE (s : GoString) : Option Int :=
  match strings.Split s 69 with
  | [m, e] =>
    match decimal m, decimal e with
    | some m, some e =>
      if e ≤ 16 ∧ m * 10 ^ e ≤ 9007199254740992 then some ((m * 10 ^ e : Nat) : Int) else none
    | _, _ => none
  | _ => none

/-- Whether a byte is a metacharacter of the regular-expression syntax. -/
def isRegexpMeta (b : UInt8) : Bool :=
  (go "\\.+*?()|[]\x7b\x7d^$").contains b

/-- Every occurrence of the non-empty text `old` replaced by `new`, from the left and
without overlap; `skip` bytes of a found occurrence are still to be dropped. -/
def replaceLiteral (old new : GoString) : Nat → GoString → GoString
  | _, [] => []
  | skip + 1, _ :: cs => replaceLiteral old new skip cs
  | 0, c :: cs =>
    if old.isPrefixOf (c :: cs) then new ++ replaceLiteral old new (old.length - 1) cs
    else c :: replaceLiteral old new 0 cs

/-- A part of `regexp.MustCompile(pattern).ReplaceAllString(src, repl)`: a non-empty
pattern without metacharacter matches its own text, and a replacement without `$`
stands for itself.  Other patterns are outside this part. -/
def compileLiteral (pattern : GoString) : Option (GoString → GoString → GoString) :=
  if pattern = [] ∨ pattern.any isRegexpMeta then none
  else some (fun src repl => replaceLiteral pattern repl 0 src)

/-- The number of days of a month of the Gregorian calendar. -/
def daysIn (month year : Nat) : Nat :=
  if month = 2 then
    if year % 4 = 0 ∧ (year % 100 ≠ 0 ∨ year % 400 = 0) then 29 else 28
  else if month = 4 ∨ month = 6 ∨ month = 9 ∨ month = 11 then 30
  else 31

/-- The call `time.Parse("2006-01-02", s)`: four digits, `-`, two digits, `-`, two
digits and nothing else, with the month from 1 to 12 and the day within the month;
the time is given as year, month and day. -/
def parseDate (s : GoString) : Option (Nat × Nat × Nat) :=
  match s with
  | [y0, y1, y2, y3, 45, m0, m1, 45, d0, d1] =>
    match decimal [y0, y1, y2, y3], decimal [m0, m1], decimal [d0, d1] with
    | some y, some m, some d =>
      if 1 ≤ m ∧ m ≤ 12 ∧ 1 ≤ d ∧ d ≤ daysIn m y then some (y, m, d) else none
    | _, _, _ => none
  | _ => none

/-- A library for concrete runs: MD5, and the parts of `regexp`, `strconv.ParseFloat`
and `time.Parse` given above. -/
def sampleLib : Lib Int (Nat × Nat × Nat) where
  md5Sum := md5.Sum
  md5Sum_length := by
    have h : ∀ n x, (md5.leBytes n x).length = n := by
      intro n
      induction n with
      | zero => intro x; rfl
      | succ n ih => intro x; simp [md5.leBytes, ih]
    intro s
    simp [md5.Sum, h]
  MustCompile := compileLiteral
  ParseFloat := parseFloatE
  timeParse := parseDate

/-- A database with an empty log on which no call fails. -/
def sampleDB : DB Int (Nat × Nat × Nat) where
  log := []
  fails := fun _ _ => false

/-- The default flags of `main.go` with the given batch threshold. -/
def sampleFlags (bulkLimit : Int) : Flags where
  max20 := false
  dateFields := []
  bulkLimit := bulkLimit
  exitOnError := false

/-- The mappings `$a -> x`, `$b -> y`, `$c -> z`. -/
def sampleMappings : List (ColumnMapping Int (Nat × Nat × Nat)) :=
  [⟨.str (go "$a"), go "x"⟩, ⟨.str (go "$b"), go "y"⟩, ⟨.str (go "$c"), go "z"⟩]

/-- The records `a,b,c`, then `1,2`, then `1,2,3`. -/
def sampleRecords : List (List GoString) :=
  [[go "a", go "b", go "c"], [go "1", go "2"], [go "1", go "2", go "3"]]

/-- The value that a batched accept hands to the bulk copy for the value `v` of the
column `columnName`: the parsed date for a text in a date column, else `v` itself. -/
def dateValue {F T : Type} (lib : Lib F T) (flags : Flags) (columnName : GoString)
    (v : Value F T) : Value F T :=
  match v with
  | .str s =>
    if isDateColumn flags columnName then
      match lib.timeParse s with
      | some t => .time t
      | none => v
    else v
  | v => v

/-- The calls that `bulkInsert` makes before the row when no statement is open. -/
def openingCalls {F T : Type} (m : MSInsert F T) : List (Event F T) :=
  match m.stmt with
  | some _ => []
  | none => [.begin, .prepare (.copyIn m.tableName (m.columnMappings.map ColumnMapping.target))]

/-- Whether a value is `nil` or a string. -/
def Value.isNullOrStr {F T : Type} : Value F T → Bool
  | .null => true
  | .str _ => true
  | _ => false

/-- The mappings `$d -> start_date`, `$n -> name`. -/
def sampleDateMappings : List (ColumnMapping Int (Nat × Nat × Nat)) :=
  [⟨.str (go "$d"), go "start_date"⟩, ⟨.str (go "$n"), go "name"⟩]

/-- A fresh sink for the table `t` with the columns `start_date`, `name`. -/
def sampleDateSink : MSInsert Int (Nat × Nat × Nat) :=
  MSInsert.new sampleDB (go "t") sampleDateMappings

/-- The row `2024-02-29`, `x`. -/
def sampleDateRow : List (Value Int (Nat × Nat × Nat)) :=
  [.str (go "2024-02-29"), .str (go "x")]

/-- Whether a part of `concat` is a single-quoted literal: at least two bytes, the first
and the last a single quote. -/
def isQuoted (p : GoString) : Bool :=
  decide (2 ≤ p.length) && p.head? = some 39 && p.getLast? = some 39

/-- The text that a trimmed part of `concat` stands for: the literal without its quotes,
or the raw field of the column that the part names. -/
def partText (header record : List GoString) (p : GoString) : GoString :=
  if isQuoted p then (p.drop 1).dropLast else rawField header record p

/-- A fresh sink for the table `t` with the one column `x`. -/
def sampleSink : MSInsert Int (Nat × Nat × Nat) :=
  MSInsert.new sampleDB (go "t") [⟨.str (go "$a"), go "x"⟩]

/-! ## Theorems -/

theorem chunks_nil {α : Type} (t : Nat) : chunks t ([] : List α) = [] := by
  rw [chunks]; simp

theorem chunks_cons {α : Type} (t : Nat) (rows : List α) (ht : 0 < t) (h : rows ≠ []) :
    chunks t rows = rows.take t :: chunks t (rows.drop t) := by
  rw [chunks]; simp [ht, List.length_pos.2 h]

theorem chunks_flatten {α : Type} (t : Nat) (ht : 0 < t) (rows : List α) :
    (chunks t rows).flatten = rows := by
  obtain ⟨n, hn⟩ : ∃ n, rows.length = n := ⟨_, rfl⟩
  induction n using Nat.strong_induction_on generalizing rows with
  | _ n ih =>
    by_cases hr : rows = []
    · subst hr; simp [chunks_nil]
    · rw [chunks_cons t rows ht hr, List.flatten_cons]
      have hpos := List.length_pos.2 hr
      rw [ih (rows.drop t).length (by simp only [List.length_drop]; omega) _ rfl]
      exact List.take_append_drop t rows

theorem chunks_length_le {α : Type} (t : Nat) (rows : List α) :
    ∀ b ∈ chunks t rows, 0 < b.length ∧ b.length ≤ t := by
  obtain ⟨n, hn⟩ : ∃ n, rows.length = n := ⟨_, rfl⟩
  induction n using Nat.strong_induction_on generalizing rows with
  | _ n ih =>
    by_cases hc : 0 < t ∧ rows ≠ []
    · obtain ⟨ht, hr⟩ := hc
      rw [chunks_cons t rows ht hr]
      have hpos := List.length_pos.2 hr
      intro b hb
      rcases List.mem_cons.1 hb with rfl | hb
      · simp only [List.length_take]; omega
      · exact ih (rows.drop t).length (by simp only [List.length_drop]; omega) _ rfl b hb
    · rw [chunks]
      have : ¬ (0 < t ∧ 0 < rows.length) := by
        rintro ⟨h1, h2⟩; exact hc ⟨h1, List.length_pos.1 h2⟩
      simp [this]

theorem convertDates_of_no_date {F T : Type} (lib : Lib F T) (flags : Flags)
    (names : List GoString) (hno : ∀ name ∈ names, isDateColumn flags name = false)
    (vs : List (Value F T)) (i : Nat) (hlen : i + vs.length ≤ names.length) :
    convertDates lib flags names i vs = .ok vs := by
  induction vs generalizing i with
  | nil => simp [convertDates]
  | cons v vs ih =>
    have hi : i < names.length := by simp at hlen; omega
    have hrec := ih (i + 1) (by simp at hlen; omega)
    have hname : names[i]? = some names[i] := List.getElem?_eq_getElem hi
    have hd : isDateColumn flags names[i] = false := hno _ (List.getElem_mem hi)
    cases v <;> simp [convertDates, hrec, hname, hd]

theorem bulkInsert_step {F T : Type} (lib : Lib F T) (flags : Flags) (db : DB F T)
    (tableName : GoString) (cms : List (ColumnMapping F T)) (t c : Nat)
    (l : List (Event F T)) (m : MSInsert F T) (r : List (Value F T))
    (hdb : db.NeverFails) (hlimit : flags.bulkLimit = (t : Int))
    (ht : (t : Int) < 9223372036854775808)
    (hno : ∀ cm ∈ cms, isDateColumn flags cm.target = false)
    (hinv : MSInsert.Pending db tableName cms c l m) (hc : c < t)
    (hr : r.length ≤ cms.length) :
    ∃ m1, m.bulkInsert lib flags r = (m1, .ok) ∧
      MSInsert.Pending db tableName cms (if c + 1 = t then 0 else c + 1)
        (l ++ (if c = 0 then [.begin, .prepare (.copyIn tableName (cms.map ColumnMapping.target))]
                else []) ++ [.exec r] ++ (if c + 1 = t then flushCalls else [])) m1 := by
  obtain ⟨⟨l1, fails⟩, tnx, tn, cm1, stmt, sql, cn, bc⟩ := m
  obtain ⟨h1, h2, h3, h4, h5, h6, h7, h8⟩ := hinv
  simp only at h1 h2 h3 h4 h5 h6 h7 h8
  subst h1 h2 h3 h4 h6 h7 h8
  have hf : ∀ l e, db.fails l e = false := hdb
  have hconv : convertDates lib flags (cm1.map ColumnMapping.target) 0 r = .ok r :=
    convertDates_of_no_date lib flags _ (by simpa using hno) r 0 (by simpa using hr)
  have hincr : incr64 (c : Int) = (c : Int) + 1 := by
    unfold incr64; rw [if_pos (by omega)]
  have hincr0 : incr64 0 = 1 := by decide
  by_cases hc0 : c = 0
  · subst hc0
    by_cases hct : 0 + 1 = t
    · subst hct
      rcases h5 with h5 | h5 <;>
        simp [MSInsert.bulkInsert, MSInsert.initColumnNames, MSInsert.bulkOpen, DB.call, hf,
          MSInsert.bulkFlush, hconv, hincr0, h5, hlimit] <;>
        constructor <;> simp [flushCalls]
    · have hlt : ¬ ((t : Int) ≤ 1) := by omega
      rcases h5 with h5 | h5 <;>
        simp [MSInsert.bulkInsert, MSInsert.initColumnNames, MSInsert.bulkOpen, DB.call, hf,
          MSInsert.bulkFlush, hconv, hincr0, h5, hlimit, hlt, hct] <;>
        constructor <;> simp
  · by_cases hct : c + 1 = t
    · have hle : (t : Int) ≤ (c : Int) + 1 := by omega
      rcases h5 with h5 | h5 <;>
        simp [MSInsert.bulkInsert, MSInsert.initColumnNames, MSInsert.bulkOpen, DB.call, hf,
          MSInsert.bulkFlush, hconv, hincr, h5, hlimit, hle, hct, hc0] <;>
        constructor <;> simp [flushCalls]
    · have hlt : ¬ ((t : Int) ≤ (c : Int) + 1) := by omega
      rcases h5 with h5 | h5 <;>
        simp [MSInsert.bulkInsert, MSInsert.initColumnNames, MSInsert.bulkOpen, DB.call, hf,
          MSInsert.bulkFlush, hconv, hincr, h5, hlimit, hlt, hct, hc0] <;>
        constructor <;> simp

theorem bulkInsertAll_append {F T : Type} (lib : Lib F T) (flags : Flags)
    (m m1 : MSInsert F T) (a b : List (List (Value F T)))
    (h : MSInsert.bulkInsertAll lib flags m a = (m1, .ok)) :
    MSInsert.bulkInsertAll lib flags m (a ++ b) = MSInsert.bulkInsertAll lib flags m1 b := by
  induction a generalizing m with
  | nil => simp [MSInsert.bulkInsertAll] at h; subst h; rfl
  | cons r rs ih =>
    simp only [List.cons_append, MSInsert.bulkInsertAll] at h ⊢
    rcases hstep : MSInsert.bulkInsert lib flags m r with ⟨m2, o⟩
    rw [hstep] at h
    cases o with
    | ok => simp only at h ⊢; exact ih m2 h
    | error e => simp at h
    | panic p => simp at h

theorem bulkInsertAll_batch {F T : Type} (lib : Lib F T) (flags : Flags) (db : DB F T)
    (tableName : GoString) (cms : List (ColumnMapping F T)) (t : Nat)
    (hdb : db.NeverFails) (hlimit : flags.bulkLimit = (t : Int))
    (ht : (t : Int) < 9223372036854775808)
    (hno : ∀ cm ∈ cms, isDateColumn flags cm.target = false)
    (b : List (List (Value F T))) (hb : ∀ r ∈ b, r.length ≤ cms.length)
    (c : Nat) (l : List (Event F T)) (m : MSInsert F T)
    (hinv : MSInsert.Pending db tableName cms c l m) (hc : c < t)
    (hlen : c + b.length ≤ t) :
    ∃ m1, MSInsert.bulkInsertAll lib flags m b = (m1, .ok) ∧
      MSInsert.Pending db tableName cms (if c + b.length = t then 0 else c + b.length)
        (l ++ (if c = 0 ∧ 0 < b.length
                then [.begin, .prepare (.copyIn tableName (cms.map ColumnMapping.target))]
                else []) ++ b.map Event.exec
            ++ (if c + b.length = t then flushCalls else [])) m1 := by
  induction b generalizing c l m with
  | nil =>
    refine ⟨m, rfl, ?_⟩
    have : ¬ (c = t) := by omega
    simpa [this] using hinv
  | cons r rs ih =>
    obtain ⟨m1, hstep, hinv1⟩ := bulkInsert_step lib flags db tableName cms t c l m r hdb
      hlimit ht hno hinv hc (hb r (List.mem_cons_self _ _))
    simp only [List.length_cons] at hlen
    by_cases hct : c + 1 = t
    · have hrs : rs = [] := List.length_eq_zero.1 (by omega)
      subst hrs
      refine ⟨m1, by simp [MSInsert.bulkInsertAll, hstep], ?_⟩
      simpa [hct] using hinv1
    · simp only [hct, if_false] at hinv1
      obtain ⟨m2, hrun, hinv2⟩ := ih (fun r hr => hb r (List.mem_cons_of_mem _ hr)) (c + 1) _ m1
        hinv1 (by omega) (by omega)
      refine ⟨m2, by simp [MSInsert.bulkInsertAll, hstep, hrun], ?_⟩
      have e1 : c + (rs.length + 1) = c + 1 + rs.length := by omega
      simpa [e1, List.append_assoc] using hinv2

theorem acceptedCalls_nil {F T : Type} (tableName : GoString) (names : List GoString)
    (t : Nat) : acceptedCalls tableName names t ([] : List (List (Value F T))) = [] := by
  simp [acceptedCalls, chunks_nil]

theorem acceptedCalls_cons {F T : Type} (tableName : GoString) (names : List GoString)
    (t : Nat) (ht : 0 < t) (rows : List (List (Value F T))) (h : rows ≠ []) :
    acceptedCalls tableName names t rows =
      (if (rows.take t).length = t then batchCalls tableName names (rows.take t)
        else openCalls tableName names (rows.take t))
      ++ acceptedCalls tableName names t (rows.drop t) := by
  simp [acceptedCalls, chunks_cons t rows ht h]

theorem bulkInsertAll_pending {F T : Type} (lib : Lib F T) (flags : Flags) (db : DB F T)
    (tableName : GoString) (cms : List (ColumnMapping F T)) (t : Nat)
    (hdb : db.NeverFails) (hlimit : flags.bulkLimit = (t : Int)) (ht0 : 0 < t)
    (ht : (t : Int) < 9223372036854775808)
    (hno : ∀ cm ∈ cms, isDateColumn flags cm.target = false)
    (rows : List (List (Value F T))) (hrows : ∀ r ∈ rows, r.length ≤ cms.length)
    (l : List (Event F T)) (m : MSInsert F T)
    (hinv : MSInsert.Pending db tableName cms 0 l m) :
    ∃ m1, MSInsert.bulkInsertAll lib flags m rows = (m1, .ok) ∧
      MSInsert.Pending db tableName cms (rows.length % t)
        (l ++ acceptedCalls tableName (cms.map ColumnMapping.target) t rows) m1 := by
  obtain ⟨n, hn⟩ : ∃ n, rows.length = n := ⟨_, rfl⟩
  induction n using Nat.strong_induction_on generalizing rows l m with
  | _ n ih =>
    by_cases hr : rows = []
    · subst hr
      refine ⟨m, rfl, ?_⟩
      simpa [acceptedCalls_nil] using hinv
    · have hpos := List.length_pos.2 hr
      have htake : ∀ r ∈ rows.take t, r.length ≤ cms.length :=
        fun r h => hrows r (List.mem_of_mem_take h)
      have hdrop : ∀ r ∈ rows.drop t, r.length ≤ cms.length :=
        fun r h => hrows r (List.mem_of_mem_drop h)
      have hlt : (rows.take t).length = min t rows.length := List.length_take _ _
      obtain ⟨m1, hrun1, hinv1⟩ := bulkInsertAll_batch lib flags db tableName cms t hdb hlimit
        ht hno (rows.take t) htake 0 l m hinv ht0 (by omega)
      have hsplit : MSInsert.bulkInsertAll lib flags m rows
          = MSInsert.bulkInsertAll lib flags m1 (rows.drop t) := by
        conv_lhs => rw [← List.take_append_drop t rows]
        exact bulkInsertAll_append lib flags m m1 _ _ hrun1
      have hpos1 : 0 < (rows.take t).length := by omega
      rw [acceptedCalls_cons tableName _ t ht0 rows hr, hsplit]
      by_cases hfull : (rows.take t).length = t
      · simp only [Nat.zero_add, hfull, if_true, hpos1, true_and, ht0] at hinv1
        obtain ⟨m2, hrun2, hinv2⟩ := ih (rows.drop t).length
          (by simp only [List.length_drop]; omega) (rows.drop t) hdrop _ m1 hinv1 rfl
        refine ⟨m2, hrun2, ?_⟩
        have hmod : rows.length % t = (rows.drop t).length % t := by
          rw [List.length_drop]
          exact Nat.mod_eq_sub_mod (by omega)
        simpa [hfull, hmod, batchCalls, openCalls, List.append_assoc] using hinv2
      · simp only [Nat.zero_add, hfull, if_false, hpos1, true_and] at hinv1
        have hshort : rows.length < t := by omega
        have hd : rows.drop t = [] := List.drop_eq_nil_of_le (by omega)
        have ht1 : rows.take t = rows := List.take_of_length_le (by omega)
        rw [hd]
        refine ⟨m1, rfl, ?_⟩
        rw [ht1] at hinv1
        rw [ht1, Nat.mod_eq_of_lt hshort, acceptedCalls_nil]
        have hne : ¬ (rows.length = t) := by omega
        simpa [hne, openCalls, List.append_assoc] using hinv1

theorem close_pending {F T : Type} (db : DB F T) (tableName : GoString)
    (cms : List (ColumnMapping F T)) (c : Nat) (l : List (Event F T)) (m : MSInsert F T)
    (hdb : db.NeverFails) (hinv : MSInsert.Pending db tableName cms c l m) :
    ∃ m1, m.close = (m1, .ok) ∧
      m1.db.log = l ++ (if c = 0 then [] else flushCalls) ∧
      m1.stmt = m.stmt ∧ m1.tnx = m.tnx ∧ m1.bulkCount = m.bulkCount := by
  obtain ⟨⟨l1, fails⟩, tnx, tn, cm1, stmt, sql, cn, bc⟩ := m
  obtain ⟨h1, h2, h3, h4, h5, h6, h7, h8⟩ := hinv
  simp only at h1 h2 h3 h4 h5 h6 h7 h8
  subst h1 h2 h3 h4 h6 h7 h8
  have hf : ∀ l e, db.fails l e = false := hdb
  by_cases hc0 : c = 0
  · subst hc0
    simp [MSInsert.close]
  · simp [MSInsert.close, MSInsert.bulkCommit, DB.call, hf, hc0, flushCalls]

theorem commits_append {F T : Type} (a b : List (Event F T)) :
    commits (a ++ b) = commits a + commits b := by
  simp [commits, List.countP_append]

theorem commits_flushCalls {F T : Type} : commits (flushCalls : List (Event F T)) = 1 := by
  simp [commits, flushCalls, List.countP_cons]

theorem commits_openCalls {F T : Type} (tableName : GoString) (names : List GoString)
    (b : List (List (Value F T))) : commits (openCalls tableName names b) = 0 := by
  simp [commits, openCalls, List.countP_cons, List.countP_eq_zero]

theorem commits_batchCalls {F T : Type} (tableName : GoString) (names : List GoString)
    (b : List (List (Value F T))) : commits (batchCalls tableName names b) = 1 := by
  simp [batchCalls, commits_append, commits_openCalls, commits_flushCalls]

theorem closedCalls_eq {F T : Type} (tableName : GoString) (names : List GoString)
    (t : Nat) (ht0 : 0 < t) (rows : List (List (Value F T))) :
    closedCalls tableName names t rows =
      acceptedCalls tableName names t rows
        ++ (if rows.length % t = 0 then [] else flushCalls) := by
  obtain ⟨n, hn⟩ : ∃ n, rows.length = n := ⟨_, rfl⟩
  induction n using Nat.strong_induction_on generalizing rows with
  | _ n ih =>
    by_cases hr : rows = []
    · subst hr
      simp [closedCalls, acceptedCalls, chunks_nil]
    · have hpos := List.length_pos.2 hr
      have hlt : (rows.take t).length = min t rows.length := List.length_take _ _
      have hrec := ih (rows.drop t).length (by simp only [List.length_drop]; omega)
        (rows.drop t) rfl
      rw [acceptedCalls_cons tableName names t ht0 rows hr]
      have hc : closedCalls tableName names t rows
          = batchCalls tableName names (rows.take t)
            ++ closedCalls tableName names t (rows.drop t) := by
        simp [closedCalls, chunks_cons t rows ht0 hr]
      rw [hc, hrec]
      by_cases hfull : (rows.take t).length = t
      · have hmod : rows.length % t = (rows.drop t).length % t := by
          rw [List.length_drop]
          exact Nat.mod_eq_sub_mod (by omega)
        simp [hfull, hmod, List.append_assoc]
      · have hshort : rows.length < t := by omega
        have hd : rows.drop t = [] := List.drop_eq_nil_of_le (by omega)
        have hne : ¬ (rows.length % t = 0) := by
          rw [Nat.mod_eq_of_lt hshort]; omega
        have hnle : ¬ (t ≤ rows.length) := by omega
        simp [hfull, hd, acceptedCalls_nil, hne, batchCalls, hnle]

theorem commits_acceptedCalls {F T : Type} (tableName : GoString) (names : List GoString)
    (t : Nat) (ht0 : 0 < t) (rows : List (List (Value F T))) :
    commits (acceptedCalls tableName names t rows) = rows.length / t := by
  obtain ⟨n, hn⟩ : ∃ n, rows.length = n := ⟨_, rfl⟩
  induction n using Nat.strong_induction_on generalizing rows with
  | _ n ih =>
    by_cases hr : rows = []
    · subst hr
      simp [acceptedCalls_nil, commits]
    · have hpos := List.length_pos.2 hr
      have hlt : (rows.take t).length = min t rows.length := List.length_take _ _
      have hrec := ih (rows.drop t).length (by simp only [List.length_drop]; omega)
        (rows.drop t) rfl
      rw [acceptedCalls_cons tableName names t ht0 rows hr, commits_append, hrec]
      by_cases hfull : (rows.take t).length = t
      · rw [if_pos hfull, commits_batchCalls, List.length_drop]
        have hge : t ≤ rows.length := by omega
        rw [Nat.div_eq_sub_div ht0 hge]; omega
      · rw [if_neg hfull, commits_openCalls, List.length_drop]
        have hshort : rows.length < t := by omega
        rw [Nat.div_eq_of_lt hshort, Nat.sub_eq_zero_of_le (by omega)]
        simp

theorem new_pending {F T : Type} (db : DB F T) (tableName : GoString)
    (cms : List (ColumnMapping F T)) :
    MSInsert.Pending db tableName cms 0 db.log (MSInsert.new db tableName cms) := by
  constructor <;> simp [MSInsert.new]

/-- C1: a fresh batched sink with threshold `t ≥ 1`, no date-selected column and a
database that never fails.  After every number `k` of accepts, all accepts have
returned no error, the calls made are those of `k / t` committed batches of `t` rows
followed by the open batch of the remaining rows, and `k / t` commits have happened.
A `close()` after all `n` accepts returns no error and adds one commit when
`n % t ≠ 0` and none otherwise; the calls are then exactly those of the consecutive
batches of `t` rows (the last one shorter), each committed once, and these batches
put end to end are the accepted rows, so that their sizes add up to `n`. -/
theorem batched_sink_commit_schedule {F T : Type} (lib : Lib F T) (flags : Flags)
    (db : DB F T) (tableName : GoString) (cms : List (ColumnMapping F T)) (t : Nat)
    (rows : List (List (Value F T)))
    (ht0 : 1 ≤ t) (hlimit : flags.bulkLimit = (t : Int))
    (ht : (t : Int) < 9223372036854775808) (hdb : db.NeverFails)
    (hno : ∀ cm ∈ cms, isDateColumn flags cm.target = false)
    (hrows : ∀ r ∈ rows, r.length ≤ cms.length) :
    (∀ k, k ≤ rows.length →
      ∃ mk, MSInsert.bulkInsertAll lib flags (MSInsert.new db tableName cms) (rows.take k)
          = (mk, .ok) ∧
        mk.db.log = db.log
          ++ acceptedCalls tableName (cms.map ColumnMapping.target) t (rows.take k) ∧
        commits mk.db.log = commits db.log + k / t) ∧
    (∃ m1 m2, MSInsert.bulkInsertAll lib flags (MSInsert.new db tableName cms) rows
          = (m1, .ok) ∧
        m1.close = (m2, .ok) ∧
        m2.db.log = db.log ++ closedCalls tableName (cms.map ColumnMapping.target) t rows ∧
        commits m2.db.log = commits m1.db.log + (if rows.length % t = 0 then 0 else 1)) ∧
    (chunks t rows).flatten = rows ∧
    ((chunks t rows).map List.length).sum = rows.length ∧
    (∀ b ∈ chunks t rows, 0 < b.length ∧ b.length ≤ t) ∧
    commits (closedCalls tableName (cms.map ColumnMapping.target) t rows)
      = (chunks t rows).length := by
  refine ⟨?_, ?_, chunks_flatten t ht0 rows, ?_, chunks_length_le t rows, ?_⟩
  · intro k hk
    obtain ⟨mk, hrun, hinv⟩ := bulkInsertAll_pending lib flags db tableName cms t hdb hlimit
      ht0 ht hno (rows.take k) (fun r h => hrows r (List.mem_of_mem_take h)) db.log _
      (new_pending db tableName cms)
    refine ⟨mk, hrun, hinv.log, ?_⟩
    rw [hinv.log, commits_append, commits_acceptedCalls _ _ t ht0, List.length_take,
      Nat.min_eq_left hk]
  · obtain ⟨m1, hrun, hinv⟩ := bulkInsertAll_pending lib flags db tableName cms t hdb hlimit
      ht0 ht hno rows hrows db.log _ (new_pending db tableName cms)
    obtain ⟨m2, hclose, hlog, -, -, -⟩ := close_pending db tableName cms _ _ m1 hdb hinv
    refine ⟨m1, m2, hrun, hclose, ?_, ?_⟩
    · rw [hlog, closedCalls_eq _ _ t ht0, List.append_assoc]
    · rw [hlog, commits_append, hinv.log]
      by_cases h0 : rows.length % t = 0
      · simp [h0, commits]
      · simp [h0, commits_flushCalls]
  · rw [← List.length_flatten, chunks_flatten t ht0 rows]
  · simp only [closedCalls]
    generalize chunks t rows = cs
    induction cs with
    | nil => simp [commits]
    | cons b bs ih =>
      rw [List.flatMap_cons, commits_append, commits_batchCalls, ih, List.length_cons]
      omega

/-- C1 witness: threshold 3 and 7 rows of one value. -/
theorem batched_sink_commit_schedule_witness :
    (1 ≤ 3 ∧ (sampleFlags 3).bulkLimit = ((3 : Nat) : Int) ∧ sampleDB.NeverFails) ∧
    ∃ m1 m2, MSInsert.bulkInsertAll sampleLib (sampleFlags 3)
          (MSInsert.new sampleDB (go "t") [⟨.str (go "$a"), go "x"⟩])
          ((List.range 7).map (fun i => [.int i])) = (m1, .ok) ∧
        m1.close = (m2, .ok) ∧
        m2.db.log = sampleDB.log ++ closedCalls (go "t") [go "x"] 3
          ((List.range 7).map (fun i => [.int i])) ∧
        commits m2.db.log = commits m1.db.log +
          (if ((List.range 7).map (fun i => [Value.int (F := Int) (T := Nat × Nat × Nat) i])).length % 3
            = 0 then 0 else 1) :=
  ⟨⟨by decide, rfl, fun _ _ => rfl⟩,
    (batched_sink_commit_schedule sampleLib (sampleFlags 3) sampleDB (go "t")
      [⟨.str (go "$a"), go "x"⟩] 3 ((List.range 7).map (fun i => [.int i]))
      (by decide) rfl (by decide) (fun _ _ => rfl) (by decide) (by decide)).2.1⟩

/-- Threshold 3 and 7 rows: the calls made by the accepts and the final `close()`, with
commits after rows 3 and 6 and a third commit of one row at the close. -/
theorem batched_sink_threshold3_rows7 :
    ((MSInsert.bulkInsertAll sampleLib (sampleFlags 3)
        (MSInsert.new sampleDB (go "t") [⟨.str (go "$a"), go "x"⟩])
        ((List.range 7).map (fun i => [.int i]))).1.close).1.db.log =
      [.begin, .prepare (.copyIn (go "t") [go "x"]),
        .exec [.int 0], .exec [.int 1], .exec [.int 2], .exec [], .stmtClose, .commit,
        .begin, .prepare (.copyIn (go "t") [go "x"]),
        .exec [.int 3], .exec [.int 4], .exec [.int 5], .exec [], .stmtClose, .commit,
        .begin, .prepare (.copyIn (go "t") [go "x"]),
        .exec [.int 6], .exec [], .stmtClose, .commit] := by
  decide

/-- C2: header `[a,b,c]`, data rows `[1,2]` then `[1,2,3]`, read through the reader
that `main.go` builds with `csv.NewReader`.  `Read` returns `ErrFieldCount` for the
short row, `migrate` panics on that error before its own width test, and no call
reaches the database: the row `[1,2,3]` is not written, in either mode. -/
theorem migrate_wrong_width_panics (bulk : Bool) :
    let c : CSVMigration Int (Nat × Nat × Nat) :=
      { insertor := MSInsert.new sampleDB (go "t") sampleMappings,
        r := NewReader sampleRecords, columnMappings := sampleMappings }
    (c.migrate sampleLib (sampleFlags 100000) bulk).2 = .panic .readError ∧
    (c.migrate sampleLib (sampleFlags 100000) bulk).1.db.log = [] := by
  cases bulk <;> decide

/-- The same records through a reader whose `FieldsPerRecord` is negative, so that
`Read` makes no check: the width test of `migrate` skips the short row, the row
`[1,2,3]` is written and `migrate` returns no error. -/
theorem migrate_wrong_width_skipped_unchecked :
    let c : CSVMigration Int (Nat × Nat × Nat) :=
      { insertor := MSInsert.new sampleDB (go "t") sampleMappings,
        r := { FieldsPerRecord := -1, input := sampleRecords },
        columnMappings := sampleMappings }
    (c.migrate sampleLib (sampleFlags 100000) true).2 = .ok ∧
    (c.migrate sampleLib (sampleFlags 100000) true).1.db.log =
      [.begin, .prepare (.copyIn (go "t") [go "x", go "y", go "z"]),
        .exec [.str (go "1"), .str (go "2"), .str (go "3")]] := by
  decide

theorem Read_cons (fpr : Int) (first : List GoString) (rest : List (List GoString)) :
    Reader.Read { FieldsPerRecord := fpr, input := first :: rest } =
      ({ FieldsPerRecord := (checkFieldCount fpr first).1, input := rest },
        if (checkFieldCount fpr first).2 then .error else .record first) := by
  simp only [Reader.Read]
  rcases h : checkFieldCount fpr first with ⟨f, b⟩
  cases b <;> simp

theorem migrateLoop_checked_ok {F T : Type} (lib : Lib F T) (flags : Flags)
    (cms : List (ColumnMapping F T)) (bulk : Bool) (header : List GoString)
    (hpos : 0 < header.length) (rows : List (List GoString)) (insertor : MSInsert F T)
    (hok : (migrateLoop lib flags cms bulk (header.length : Int) (some header) insertor
      rows).2 = .ok) :
    ∀ r ∈ rows, r.length = header.length := by
  induction rows generalizing insertor with
  | nil => intro r hr; simp at hr
  | cons record rest ih =>
    have hfpr : (header.length : Int) > 0 := by omega
    by_cases hwidth : record.length = header.length
    · have hcheck : checkFieldCount (header.length : Int) record
          = ((header.length : Int), false) := by
        simp [checkFieldCount, hfpr, hwidth]
      rw [migrateLoop, Read_cons, hcheck] at hok
      simp only [hwidth, ne_eq, not_true_eq_false, if_false, Bool.false_eq_true] at hok
      intro r hr
      rcases List.mem_cons.1 hr with rfl | hr
      · exact hwidth
      · cases hev : evalMappings lib flags (makeNameIndex header) record cms with
        | error p => rw [hev] at hok; cases hok
        | ok values =>
          rw [hev] at hok
          simp only at hok
          rcases hsink : (if bulk = true then insertor.bulkInsert lib flags values
            else insertor.insert flags values) with ⟨m1, o⟩
          rw [hsink] at hok
          cases o with
          | ok => exact ih m1 hok r hr
          | error e => cases hok
          | panic p => cases hok
    · have hcheck : checkFieldCount (header.length : Int) record
          = ((header.length : Int), true) := by
        have : ¬ ((record.length : Int) = (header.length : Int)) := by omega
        simp [checkFieldCount, hfpr, this]
      rw [migrateLoop, Read_cons, hcheck] at hok
      cases hok

/-- With the reader that `csv.NewReader` builds, `migrate` returns no error only when
every data record has the width of the header: a record of another width is never
skipped, it ends the migration. -/
theorem migrate_default_reader_never_skips {F T : Type} (lib : Lib F T) (flags : Flags)
    (insertor : MSInsert F T) (cms : List (ColumnMapping F T)) (bulk : Bool)
    (header : List GoString) (rows : List (List GoString)) (hpos : 0 < header.length)
    (hok : (CSVMigration.migrate lib flags
      { insertor := insertor, r := NewReader (header :: rows), columnMappings := cms }
      bulk).2 = .ok) :
    ∀ r ∈ rows, r.length = header.length := by
  have hcheck : checkFieldCount 0 header = ((header.length : Int), false) := by
    simp [checkFieldCount]
  simp only [CSVMigration.migrate, NewReader, migrateLoop, Read_cons, hcheck,
    Bool.false_eq_true, if_false] at hok
  exact migrateLoop_checked_ok lib flags cms bulk header hpos rows insertor hok

theorem fillNameIndex_get_of_not_mem (col : GoString) (rest : List GoString)
    (m : NameIndex) (k : Nat) (h : col ∉ rest) :
    (fillNameIndex m k rest).get col = m.get col := by
  induction rest generalizing m k with
  | nil => rfl
  | cons v rest ih =>
    simp only [List.mem_cons, not_or] at h
    rw [fillNameIndex, ih _ _ h.2, NameIndex.get, if_neg (fun e => h.1 e.symm)]

theorem fillNameIndex_get_last (col : GoString) (rest : List GoString)
    (m : NameIndex) (k i : Nat) (hi : rest[i]? = some col)
    (hlast : ∀ j, i < j → rest[j]? ≠ some col) :
    (fillNameIndex m k rest).get col = some (k + i) := by
  induction rest generalizing m k i with
  | nil => simp at hi
  | cons v rest ih =>
    cases i with
    | zero =>
      simp only [List.getElem?_cons_zero, Option.some.injEq] at hi
      subst hi
      have hnot : v ∉ rest := by
        intro hmem
        obtain ⟨j, hj, hjv⟩ := List.getElem_of_mem hmem
        exact hlast (j + 1) (Nat.succ_pos j)
          (by rw [List.getElem?_cons_succ, List.getElem?_eq_getElem hj, hjv])
      rw [fillNameIndex, fillNameIndex_get_of_not_mem _ _ _ _ hnot]
      simp [NameIndex.get]
    | succ i =>
      rw [List.getElem?_cons_succ] at hi
      rw [fillNameIndex, ih _ (k + 1) i hi (fun j hj => by
        have := hlast (j + 1) (by omega)
        rwa [List.getElem?_cons_succ] at this)]
      congr 1; omega

/-- The name index of a header gives, for a name of the header, the position of its
last occurrence. -/
theorem makeNameIndex_get (header : List GoString) (col : GoString) (i : Nat)
    (hi : header[i]? = some col) (hlast : ∀ j, i < j → header[j]? ≠ some col) :
    (makeNameIndex header).get col = some i := by
  rw [makeNameIndex, fillNameIndex_get_last col header [] 0 i hi hlast, Nat.zero_add]

/-- A name that the header lacks has no entry in the name index. -/
theorem makeNameIndex_get_none (header : List GoString) (col : GoString)
    (h : col ∉ header) : (makeNameIndex header).get col = none := by
  rw [makeNameIndex, fillNameIndex_get_of_not_mem col header [] 0 h]
  rfl

theorem field_of_header (header record : List GoString) (col : GoString) (i : Nat)
    (hw : record.length = header.length) (hi : header[i]? = some col)
    (hlast : ∀ j, i < j → header[j]? ≠ some col) :
    ∃ f, record[i]? = some f ∧ field (makeNameIndex header) record col = .ok f := by
  have hlt : i < record.length := by
    rw [hw]
    by_contra hge
    rw [List.getElem?_eq_none (by omega)] at hi
    exact absurd hi (by simp)
  refine ⟨record[i], List.getElem?_eq_getElem hlt, ?_⟩
  simp [field, makeNameIndex_get header col i hi hlast, List.getElem?_eq_getElem hlt]

theorem go_dollar : go "$" = [36] := by decide

/-- A mapping source that begins with `$` is evaluated as the post-processed text of
the rest of the source. -/
theorem evalSource_dollar {F T : Type} (lib : Lib F T) (flags : Flags) (ni : NameIndex)
    (record : List GoString) (columnName : GoString) :
    evalSource lib flags ni record (.str (go "$" ++ columnName)) =
      match rawValue lib flags ni record columnName with
      | .error e => .error e
      | .ok value => .ok (postProcess lib value) := by
  simp [evalSource, go_dollar, slice]

theorem rawValue_plain {F T : Type} (lib : Lib F T) (flags : Flags) (ni : NameIndex)
    (record : List GoString) (col f : GoString)
    (hhash : strings.HasPrefix col (go "hash(") = false)
    (hreplace : strings.HasPrefix col (go "replace") = false)
    (hconcat : strings.HasPrefix col (go "concat") = false)
    (hfield : field ni record col = .ok f)
    (hmax : flags.max20 = false ∨
      (col ≠ go "RECALL_LOG_ID" ∧ col ≠ go "RECALL_TRACE_ID") ∨ f.length ≤ 20) :
    rawValue lib flags ni record col = .ok f := by
  rcases hmax with h | h | h
  · simp [rawValue, hhash, hreplace, hconcat, hfield, h]
  · simp [rawValue, hhash, hreplace, hconcat, hfield, h.1, h.2]
  · have : ¬ (20 < f.length) := by omega
    simp [rawValue, hhash, hreplace, hconcat, hfield, this]

/-- C3 as amended: for a header, a data row of the same width and a name `col` of the
header that begins with none of `hash(`, `replace`, `concat`, with the max-length
policy off or not applicable (the name is off its list or the field has at most 20
bytes), `$col` yields the post-processed raw field at the last header position of
`col`: NULL when the trimmed field is empty, else the `float64` when the trimmed field
contains `E` and `ParseFloat` accepts it, else the trimmed field as text. -/
theorem column_reference_value {F T : Type} (lib : Lib F T) (flags : Flags)
    (header record : List GoString) (col : GoString) (i : Nat)
    (hw : record.length = header.length) (hi : header[i]? = some col)
    (hlast : ∀ j, i < j → header[j]? ≠ some col)
    (hhash : strings.HasPrefix col (go "hash(") = false)
    (hreplace : strings.HasPrefix col (go "replace") = false)
    (hconcat : strings.HasPrefix col (go "concat") = false)
    (hmax : flags.max20 = false ∨
      (col ≠ go "RECALL_LOG_ID" ∧ col ≠ go "RECALL_TRACE_ID") ∨
      ∀ f, record[i]? = some f → f.length ≤ 20) :
    ∃ f, record[i]? = some f ∧
      evalSource lib flags (makeNameIndex header) record (.str (go "$" ++ col))
        = .ok (postProcess lib f) ∧
      (strings.TrimSpace f = [] → postProcess lib f = .null) ∧
      (strings.TrimSpace f ≠ [] → ∀ x, strings.Contains (strings.TrimSpace f) (go "E") = true →
        lib.ParseFloat (strings.TrimSpace f) = some x → postProcess lib f = .float64 x) ∧
      (strings.TrimSpace f ≠ [] →
        (strings.Contains (strings.TrimSpace f) (go "E") = false ∨
          lib.ParseFloat (strings.TrimSpace f) = none) →
        postProcess lib f = .str (strings.TrimSpace f)) := by
  obtain ⟨f, hf, hfield⟩ := field_of_header header record col i hw hi hlast
  have hmax1 : flags.max20 = false ∨
      (col ≠ go "RECALL_LOG_ID" ∧ col ≠ go "RECALL_TRACE_ID") ∨ f.length ≤ 20 := by
    rcases hmax with h | h | h
    · exact Or.inl h
    · exact Or.inr (Or.inl h)
    · exact Or.inr (Or.inr (h f hf))
  refine ⟨f, hf, ?_, ?_, ?_, ?_⟩
  · rw [evalSource_dollar, rawValue_plain lib flags _ record col f hhash hreplace hconcat
      hfield hmax1]
  · intro h; simp [postProcess, h]
  · intro h x hE hx; simp [postProcess, h, hE, hx]
  · intro h hor
    rcases hor with hE | hx
    · simp [postProcess, h, hE]
    · simp [postProcess, h, hx]

/-- C3 witness: header `[a,b]`, row `[1, " x "]`, column `b`. -/
theorem column_reference_value_witness :
    ([go "1", go " x "].length = [go "a", go "b"].length ∧
      [go "a", go "b"][1]? = some (go "b")) ∧
    ∃ f, [go "1", go " x "][1]? = some f ∧
      evalSource sampleLib (sampleFlags 3) (makeNameIndex [go "a", go "b"])
        [go "1", go " x "] (.str (go "$" ++ go "b")) = .ok (postProcess sampleLib f) :=
  ⟨⟨by decide, by decide⟩,
    (column_reference_value sampleLib (sampleFlags 3) [go "a", go "b"] [go "1", go " x "]
      (go "b") 1 (by decide) (by decide)
      (fun j hj => by
        rw [List.getElem?_eq_none (by simp; omega)]; simp)
      (by decide) (by decide) (by decide) (Or.inl rfl)).imp
      (fun _ h => ⟨h.1, h.2.1⟩)⟩

/-- C3 counterexample: the field `1E10` of column `b` is given as the `float64`
10000000000 and not as the text `1E10`; with the max-length policy on, the 30-byte
field of column `RECALL_LOG_ID` is given as its last 20 bytes and not as the whole
trimmed field; for a header column named `concat(a)`, the source `$concat(a)` gives
the field of column `a` and not the field of that column. -/
theorem column_reference_not_trimmed_field :
    (evalSource sampleLib (sampleFlags 3) (makeNameIndex [go "a", go "b"])
        [go "1", go "1E10"] (.str (go "$b")) = .ok (.float64 10000000000) ∧
      strings.TrimSpace (go "1E10") = go "1E10") ∧
    (evalSource sampleLib { sampleFlags 3 with max20 := true }
        (makeNameIndex [go "RECALL_LOG_ID"])
        [go "abcdefghijklmnopqrstuvwxyz0123"] (.str (go "$RECALL_LOG_ID"))
        = .ok (.str (go "klmnopqrstuvwxyz0123")) ∧
      strings.TrimSpace (go "abcdefghijklmnopqrstuvwxyz0123")
        = go "abcdefghijklmnopqrstuvwxyz0123") ∧
    evalSource sampleLib (sampleFlags 3) (makeNameIndex [go "a", go "concat(a)"])
        [go "1", go "2"] (.str (go "$concat(a)")) = .ok (.str (go "1")) := by
  decide

theorem Split_of_not_mem (sep : UInt8) (t : GoString) (h : sep ∉ t) :
    strings.Split t sep = [t] := by
  induction t with
  | nil => rfl
  | cons c cs ih =>
    simp only [List.mem_cons, not_or] at h
    rw [strings.Split, if_neg (fun e => h.1 e.symm), ih h.2]

theorem Split_append_sep (sep : UInt8) (t rest : GoString) (h : sep ∉ t) :
    strings.Split (t ++ sep :: rest) sep = t :: strings.Split rest sep := by
  induction t with
  | nil => simp [strings.Split]
  | cons c cs ih =>
    simp only [List.mem_cons, not_or] at h
    rw [List.cons_append, strings.Split, if_neg (fun e => h.1 e.symm), ih h.2]

/-- Splitting the joined tokens at the separator gives the tokens back, when no
token contains the separator. -/
theorem Split_Join (sep : UInt8) (tokens : List GoString) (hne : tokens ≠ [])
    (h : ∀ t ∈ tokens, sep ∉ t) :
    strings.Split (strings.Join tokens sep) sep = tokens := by
  induction tokens with
  | nil => exact absurd rfl hne
  | cons t ts ih =>
    cases ts with
    | nil =>
      simp only [strings.Join, List.intercalate, List.intersperse, List.flatten_cons,
        List.flatten_nil, List.append_nil]
      exact Split_of_not_mem sep t (h t (List.mem_cons_self _ _))
    | cons t1 ts =>
      have hj : strings.Join (t :: t1 :: ts) sep = t ++ sep :: strings.Join (t1 :: ts) sep := by
        simp [strings.Join, List.intercalate, List.intersperse]
      rw [hj, Split_append_sep sep t _ (h t (List.mem_cons_self _ _)),
        ih (by simp) (fun u hu => h u (List.mem_cons_of_mem _ hu))]

theorem slice_middle (a b c : GoString) :
    slice (a ++ b ++ c) (a.length : Int) (((a ++ b ++ c).length : Int) - (c.length : Int))
      = some b := by
  have h1 : (0 : Int) ≤ a.length := by omega
  have h2 : ((a.length : Int)) ≤ ((a ++ b ++ c).length : Int) - (c.length : Int) := by
    simp only [List.length_append, Nat.cast_add]; omega
  have h3 : ((a ++ b ++ c).length : Int) - (c.length : Int) ≤ ((a ++ b ++ c).length : Int) := by
    omega
  rw [slice, if_pos ⟨h1, h2, h3⟩]
  have e1 : ((a.length : Int)).toNat = a.length := by simp
  have e2 : (((a ++ b ++ c).length : Int) - (c.length : Int)).toNat = a.length + b.length := by
    simp only [List.length_append, Nat.cast_add]; omega
  rw [e1, e2, List.append_assoc, List.drop_left, Nat.add_sub_cancel_left, List.take_left]

theorem HasPrefix_append (a b : GoString) : strings.HasPrefix (a ++ b) a = true := by
  simp [strings.HasPrefix]

theorem toNat_ofNat_lt (n : Nat) (h : n < 256) : (UInt8.ofNat n).toNat = n := by
  show n % 256 = n
  exact Nat.mod_eq_of_lt h

theorem isLowerHex_hexDigit (n : Nat) (h : n < 16) : isLowerHex (hexDigit n) = true := by
  unfold hexDigit isLowerHex
  split
  · rw [toNat_ofNat_lt _ (by omega)]
    simp; omega
  · rw [toNat_ofNat_lt _ (by omega)]
    simp; omega

theorem length_hexEncode (bs : List UInt8) : (hexEncode bs).length = 2 * bs.length := by
  induction bs with
  | nil => rfl
  | cons b bs ih =>
    simp only [hexEncode, List.flatMap_cons, List.length_append, List.length_cons,
      List.length_nil] at ih ⊢
    omega

theorem isLowerHex_hexEncode (bs : List UInt8) : ∀ b ∈ hexEncode bs, isLowerHex b = true := by
  intro b hb
  simp only [hexEncode, List.mem_flatMap, List.mem_cons, List.mem_singleton,
    List.not_mem_nil, or_false] at hb
  obtain ⟨a, -, rfl | rfl⟩ := hb
  · exact isLowerHex_hexDigit _ (by have := UInt8.toNat_lt a; omega)
  · exact isLowerHex_hexDigit _ (by omega)

theorem Contains_singleton (c : UInt8) (s : GoString) :
    strings.Contains s [c] = decide (c ∈ s) := by
  induction s with
  | nil => simp [strings.Contains]
  | cons b bs ih =>
    simp only [strings.Contains, ih, List.isPrefixOf, List.mem_cons]
    by_cases h : c = b
    · subst h; simp
    · have h2 : ¬ (b = c) := fun e => h e.symm
      simp [h, h2]

theorem TrimLeftSpace_of_ascii (b : UInt8) (t : GoString) (hb : b.toNat < 128)
    (hs : strings.space1 b = false) : strings.TrimLeftSpace (b :: t) = b :: t := by
  have h2 : ∀ c, strings.space2 b c = false := by
    intro c; simp [strings.space2]; omega
  have h3 : ∀ c d, strings.space3 b c d = false := by
    intro c d; simp [strings.space3]; omega
  cases t with
  | nil => simp [strings.TrimLeftSpace, hs]
  | cons c t =>
    cases t with
    | nil => simp [strings.TrimLeftSpace, hs, h2]
    | cons d t => simp [strings.TrimLeftSpace, hs, h2, h3]

theorem TrimRightSpaceRev_of_ascii (b : UInt8) (t : GoString) (hb : b.toNat < 128)
    (hs : strings.space1 b = false) : strings.TrimRightSpaceRev (b :: t) = b :: t := by
  have h2 : ∀ c, strings.space2 c b = false := by
    intro c; simp [strings.space2]; omega
  have h3 : ∀ c d, strings.space3 d c b = false := by
    intro c d; simp [strings.space3]; omega
  cases t with
  | nil => simp [strings.TrimRightSpaceRev, hs]
  | cons c t =>
    cases t with
    | nil => simp [strings.TrimRightSpaceRev, hs, h2]
    | cons d t => simp [strings.TrimRightSpaceRev, hs, h2, h3]

/-- Trimming leaves a text unchanged when its first and last bytes are ASCII and not
white space. -/
theorem TrimSpace_of_ascii_ends (s : GoString)
    (h : ∀ b ∈ s, b.toNat < 128 ∧ strings.space1 b = false) : strings.TrimSpace s = s := by
  have hl : strings.TrimLeftSpace s = s := by
    cases s with
    | nil => rfl
    | cons b t =>
      exact TrimLeftSpace_of_ascii b t (h b (List.mem_cons_self _ _)).1
        (h b (List.mem_cons_self _ _)).2
  rw [strings.TrimSpace, hl, strings.TrimRightSpace]
  rcases hr : s.reverse with _ | ⟨b, t⟩
  · have : s = [] := by simpa using hr
    subst this; rfl
  · have hmem : b ∈ s := by
      have : b ∈ s.reverse := by rw [hr]; exact List.mem_cons_self _ _
      simpa using this
    rw [TrimRightSpaceRev_of_ascii b t (h b hmem).1 (h b hmem).2, ← hr, List.reverse_reverse]

theorem isLowerHex_ascii (b : UInt8) (h : isLowerHex b = true) :
    b.toNat < 128 ∧ strings.space1 b = false ∧ b ≠ 69 := by
  simp only [isLowerHex, Bool.or_eq_true, Bool.and_eq_true, decide_eq_true_eq] at h
  refine ⟨by omega, ?_, ?_⟩
  · simp [strings.space1]; omega
  · intro e; subst e
    revert h; decide

/-- Post-processing leaves a non-empty text of lowercase hexadecimal digits as it is. -/
theorem postProcess_hex {F T : Type} (lib : Lib F T) (s : GoString) (hne : s ≠ [])
    (h : ∀ b ∈ s, isLowerHex b = true) : postProcess lib s = .str s := by
  have htrim : strings.TrimSpace s = s :=
    TrimSpace_of_ascii_ends s (fun b hb => ⟨(isLowerHex_ascii b (h b hb)).1,
      (isLowerHex_ascii b (h b hb)).2.1⟩)
  have hE : strings.Contains s (go "E") = false := by
    have : go "E" = [69] := by decide
    rw [this, Contains_singleton]
    simp only [decide_eq_false_iff_not]
    intro hmem
    exact (isLowerHex_ascii 69 (h 69 hmem)).2.2 rfl
  simp [postProcess, htrim, hne, hE]

theorem exists_last_index (header : List GoString) (col : GoString) (h : col ∈ header) :
    ∃ i : Nat, header[i]? = some col ∧ ∀ j, i < j → header[j]? ≠ some col := by
  induction header with
  | nil => simp at h
  | cons v rest ih =>
    by_cases hmem : col ∈ rest
    · obtain ⟨i, hi, hlast⟩ := ih hmem
      refine ⟨i + 1, by simpa using hi, ?_⟩
      intro j hj
      obtain ⟨k, rfl⟩ : ∃ k, j = k + 1 := ⟨j - 1, by omega⟩
      rw [List.getElem?_cons_succ]
      exact hlast k (by omega)
    · have hv : col = v := by
        rcases List.mem_cons.1 h with e | e
        · exact e
        · exact absurd e hmem
      subst hv
      refine ⟨0, by simp, ?_⟩
      intro j hj
      obtain ⟨k, rfl⟩ : ∃ k, j = k + 1 := ⟨j - 1, by omega⟩
      rw [List.getElem?_cons_succ]
      intro hk
      exact hmem (List.getElem?_mem hk)

/-- For a record of header width and a name of the header, the field lookup of
`migrate` succeeds with the field at the last header position of the name. -/
theorem field_of_mem (header record : List GoString) (col : GoString)
    (hw : record.length = header.length) (h : col ∈ header) :
    field (makeNameIndex header) record col = .ok (rawField header record col) ∧
    ∃ i : Nat, header[i]? = some col ∧ (∀ j, i < j → header[j]? ≠ some col) ∧
      record[i]? = some (rawField header record col) := by
  obtain ⟨i, hi, hlast⟩ := exists_last_index header col h
  obtain ⟨f, hf, hfield⟩ := field_of_header header record col i hw hi hlast
  have hraw : rawField header record col = f := by simp [rawField, hfield]
  rw [hraw]
  exact ⟨hfield, i, hi, hlast, hf⟩

theorem hashFields_of_mem (header record : List GoString)
    (hw : record.length = header.length) (tokens : List GoString)
    (hcols : ∀ t ∈ tokens, strings.TrimSpace t ∈ header) (value : GoString) :
    hashFields (makeNameIndex header) record tokens value =
      .ok (value ++ (tokens.map
        (fun t => rawField header record (strings.TrimSpace t))).flatten) := by
  induction tokens generalizing value with
  | nil => simp [hashFields]
  | cons t ts ih =>
    have h1 := (field_of_mem header record _ hw (hcols t (List.mem_cons_self _ _))).1
    simp only [hashFields, h1]
    rw [ih (fun u hu => hcols u (List.mem_cons_of_mem _ hu))]
    simp [List.append_assoc]

theorem go_hash_source (inner : GoString) :
    go "$hash(" ++ inner ++ go ")" = go "$" ++ (go "hash(" ++ inner ++ go ")") := by
  have : go "$hash(" = go "$" ++ go "hash(" := by decide
  rw [this]; simp [List.append_assoc]

theorem rawValue_hash {F T : Type} (lib : Lib F T) (flags : Flags)
    (header record : List GoString) (tokens : List GoString)
    (hw : record.length = header.length) (hne : tokens ≠ [])
    (hcomma : ∀ t ∈ tokens, (44 : UInt8) ∉ t)
    (hcols : ∀ t ∈ tokens, strings.TrimSpace t ∈ header) :
    rawValue lib flags (makeNameIndex header) record
        (go "hash(" ++ strings.Join tokens 44 ++ go ")")
      = .ok ((hexEncode (lib.md5Sum ((tokens.map
          (fun t => rawField header record (strings.TrimSpace t))).flatten))).take 20) := by
  generalize hv : (tokens.map
    (fun t => rawField header record (strings.TrimSpace t))).flatten = value
  have hlen : (hexEncode (lib.md5Sum value)).length = 32 := by
    rw [length_hexEncode, lib.md5Sum_length]
  have hslice : slice (hexEncode (lib.md5Sum value)) 0 20
      = some ((hexEncode (lib.md5Sum value)).take 20) := by
    simp [slice, hlen]
  have hinner : slice (go "hash(" ++ strings.Join tokens 44 ++ go ")") 5
      (((go "hash(" ++ strings.Join tokens 44 ++ go ")").length : Int) - 1)
      = some (strings.Join tokens 44) :=
    slice_middle (go "hash(") (strings.Join tokens 44) (go ")")
  have hpre : strings.HasPrefix (go "hash(" ++ strings.Join tokens 44 ++ go ")")
      (go "hash(") = true := by
    rw [List.append_assoc]; exact HasPrefix_append _ _
  rw [rawValue, if_pos hpre, hinner]
  simp only [Split_Join 44 tokens hne hcomma, hashFields_of_mem header record hw tokens hcols,
    List.nil_append, hv, hslice]

theorem evalSource_hash {F T : Type} (lib : Lib F T) (flags : Flags)
    (header record : List GoString) (tokens : List GoString)
    (hw : record.length = header.length) (hne : tokens ≠ [])
    (hcomma : ∀ t ∈ tokens, (44 : UInt8) ∉ t)
    (hcols : ∀ t ∈ tokens, strings.TrimSpace t ∈ header) :
    evalSource lib flags (makeNameIndex header) record
        (.str (go "$hash(" ++ strings.Join tokens 44 ++ go ")"))
      = .ok (.str ((hexEncode (lib.md5Sum ((tokens.map
          (fun t => rawField header record (strings.TrimSpace t))).flatten))).take 20)) := by
  have hraw := rawValue_hash lib flags header record tokens hw hne hcomma hcols
  generalize hv : (tokens.map
    (fun t => rawField header record (strings.TrimSpace t))).flatten = value at hraw ⊢
  have hlen : (hexEncode (lib.md5Sum value)).length = 32 := by
    rw [length_hexEncode, lib.md5Sum_length]
  have hlen20 : ((hexEncode (lib.md5Sum value)).take 20).length = 20 := by
    rw [List.length_take, hlen]; rfl
  have hhex : ∀ b ∈ (hexEncode (lib.md5Sum value)).take 20, isLowerHex b = true :=
    fun b hb => isLowerHex_hexEncode _ b (List.mem_of_mem_take hb)
  have hne20 : (hexEncode (lib.md5Sum value)).take 20 ≠ [] := by
    intro e; rw [e] at hlen20; simp at hlen20
  rw [go_hash_source, evalSource_dollar, hraw]
  simp only
  rw [postProcess_hex lib _ hne20 hhex]

/-- C4: for a header, a data row of the same width and a non-empty list of tokens
without comma whose trimmed texts are names of the header, `$hash(t1,...,tn)` yields
a text, the first 20 bytes of the lowercase hexadecimal encoding of the 16-byte MD5
digest of the raw fields of the listed columns put end to end in the listed order;
it has exactly 20 bytes, each one of `0`-`9`, `a`-`f`, and each raw field is the
field at the last header position of its column.  The value depends on the row only
through the listed fields: a row with the same fields in these columns gives the same
value. -/
theorem hash_value {F T : Type} (lib : Lib F T) (flags : Flags)
    (header record : List GoString) (tokens : List GoString)
    (hw : record.length = header.length) (hne : tokens ≠ [])
    (hcomma : ∀ t ∈ tokens, (44 : UInt8) ∉ t)
    (hcols : ∀ t ∈ tokens, strings.TrimSpace t ∈ header) :
    evalSource lib flags (makeNameIndex header) record
        (.str (go "$hash(" ++ strings.Join tokens 44 ++ go ")"))
      = .ok (.str ((hexEncode (lib.md5Sum ((tokens.map
          (fun t => rawField header record (strings.TrimSpace t))).flatten))).take 20)) ∧
    ((hexEncode (lib.md5Sum ((tokens.map
        (fun t => rawField header record (strings.TrimSpace t))).flatten))).take 20).length
      = 20 ∧
    (∀ b ∈ (hexEncode (lib.md5Sum ((tokens.map
        (fun t => rawField header record (strings.TrimSpace t))).flatten))).take 20,
      isLowerHex b = true) ∧
    (lib.md5Sum ((tokens.map
        (fun t => rawField header record (strings.TrimSpace t))).flatten)).length = 16 ∧
    (∀ t ∈ tokens, ∃ i : Nat, header[i]? = some (strings.TrimSpace t) ∧
      (∀ j, i < j → header[j]? ≠ some (strings.TrimSpace t)) ∧
      record[i]? = some (rawField header record (strings.TrimSpace t))) ∧
    (∀ record2 : List GoString, record2.length = header.length →
      (∀ t ∈ tokens, rawField header record2 (strings.TrimSpace t)
        = rawField header record (strings.TrimSpace t)) →
      evalSource lib flags (makeNameIndex header) record2
          (.str (go "$hash(" ++ strings.Join tokens 44 ++ go ")"))
        = evalSource lib flags (makeNameIndex header) record
          (.str (go "$hash(" ++ strings.Join tokens 44 ++ go ")"))) := by
  have hlen : ∀ value, (hexEncode (lib.md5Sum value)).length = 32 := by
    intro value; rw [length_hexEncode, lib.md5Sum_length]
  refine ⟨evalSource_hash lib flags header record tokens hw hne hcomma hcols, ?_, ?_,
    lib.md5Sum_length _, ?_, ?_⟩
  · rw [List.length_take, hlen]; rfl
  · exact fun b hb => isLowerHex_hexEncode _ b (List.mem_of_mem_take hb)
  · intro t ht
    exact (field_of_mem header record _ hw (hcols t ht)).2
  · intro record2 hw2 hsame
    rw [evalSource_hash lib flags header record tokens hw hne hcomma hcols,
      evalSource_hash lib flags header record2 tokens hw2 hne hcomma hcols,
      List.map_congr_left hsame]

/-- C4 witness: header `[a,b]`, row `[1,2]`, source `$hash(a, b)`. -/
theorem hash_value_witness :
    ([go "1", go "2"].length = [go "a", go "b"].length ∧ [go "a", go " b"] ≠ [] ∧
      (∀ t ∈ [go "a", go " b"], (44 : UInt8) ∉ t) ∧
      (∀ t ∈ [go "a", go " b"], strings.TrimSpace t ∈ [go "a", go "b"])) ∧
    evalSource sampleLib (sampleFlags 3) (makeNameIndex [go "a", go "b"]) [go "1", go "2"]
        (.str (go "$hash(" ++ strings.Join [go "a", go " b"] 44 ++ go ")"))
      = .ok (.str ((hexEncode (sampleLib.md5Sum (([go "a", go " b"].map
          (fun t => rawField [go "a", go "b"] [go "1", go "2"]
            (strings.TrimSpace t))).flatten))).take 20)) :=
  ⟨⟨by decide, by decide, by decide, by decide⟩,
    (hash_value sampleLib (sampleFlags 3) [go "a", go "b"] [go "1", go "2"]
      [go "a", go " b"] (by decide) (by decide) (by decide) (by decide)).1⟩

/-- The test vectors of RFC 1321 for the empty text and for `abc`. -/
theorem md5_test_vectors :
    hexEncode (md5.Sum (go "")) = go "d41d8cd98f00b204e9800998ecf8427e" ∧
    hexEncode (md5.Sum (go "abc")) = go "900150983cd24fb0d6963f7d28e17f72" := by
  decide

/-- Header `[a,b]`, row `[1,2]`: `$hash(a, b)` yields the first 20 hexadecimal digits
of the MD5 digest of `12`. -/
theorem hash_value_example :
    evalSource sampleLib (sampleFlags 3) (makeNameIndex [go "a", go "b"]) [go "1", go "2"]
        (.str (go "$hash(a, b)")) = .ok (.str (go "c20ad4d76fe97759aa27")) := by
  have h := rawValue_hash sampleLib (sampleFlags 3) [go "a", go "b"] [go "1", go "2"]
      [go "a", go " b"] (by decide) (by decide) (by decide) (by decide)
  have hsrc : go "$hash(a, b)"
      = go "$" ++ (go "hash(" ++ strings.Join [go "a", go " b"] 44 ++ go ")") := by
    decide
  have hval : ([go "a", go " b"].map (fun t => rawField [go "a", go "b"] [go "1", go "2"]
      (strings.TrimSpace t))).flatten = go "12" := by decide
  have hmd5 : (hexEncode (md5.Sum (go "12"))).take 20 = go "c20ad4d76fe97759aa27" := by
    decide
  have hpost : postProcess sampleLib (go "c20ad4d76fe97759aa27")
      = .str (go "c20ad4d76fe97759aa27") := by decide
  rw [hval] at h
  rw [hsrc, evalSource_dollar, h]
  show Except.ok (postProcess sampleLib ((hexEncode (md5.Sum (go "12"))).take 20)) = _
  rw [hmd5, hpost]

theorem convertDates_ok {F T : Type} (lib : Lib F T) (flags : Flags)
    (names : List GoString) (vs : List (Value F T)) (i : Nat)
    (hlen : i + vs.length ≤ names.length)
    (htext : ∀ (k : Nat) v name, vs[k]? = some v → names[i + k]? = some name →
      isDateColumn flags name = true → v = .null ∨ ∃ s t, v = .str s ∧ lib.timeParse s = some t) :
    convertDates lib flags names i vs
      = .ok (List.zipWith (dateValue lib flags) (names.drop i) vs) := by
  induction vs generalizing i with
  | nil => simp [convertDates]
  | cons v vs ih =>
    have hi : i < names.length := by simp at hlen; omega
    have hname : names[i]? = some names[i] := List.getElem?_eq_getElem hi
    have hrec := ih (i + 1) (by simp at hlen; omega) (fun k v name hv hn hd =>
      htext (k + 1) v name (by simpa using hv) (by rwa [← Nat.add_assoc, Nat.add_right_comm]) hd)
    have hdrop : names.drop i = names[i] :: names.drop (i + 1) := by
      rw [List.drop_eq_getElem_cons hi]
    rw [hdrop, List.zipWith_cons_cons]
    have h0 := htext 0 v names[i] (by simp) (by simp)
    by_cases hd : isDateColumn flags names[i] = true
    · rcases h0 hd with rfl | ⟨s, t, rfl, ht⟩
      · simp [convertDates, hrec, dateValue]
      · simp [convertDates, hrec, dateValue, hname, hd, ht]
    · have hd2 : isDateColumn flags names[i] = false := by simpa using hd
      cases v <;> simp [convertDates, hrec, dateValue, hname, hd2]

theorem convertDates_error {F T : Type} (lib : Lib F T) (flags : Flags)
    (names : List GoString) (vs : List (Value F T)) (i : Nat)
    (hlen : i + vs.length ≤ names.length)
    (htext : ∀ (k : Nat) v name, vs[k]? = some v → names[i + k]? = some name →
      isDateColumn flags name = true → v = .null ∨ ∃ s, v = .str s)
    (hbad : ∃ (k : Nat) (s name : GoString), vs[k]? = some (.str s) ∧
      names[i + k]? = some name ∧ isDateColumn flags name = true ∧ lib.timeParse s = none) :
    ∃ s, convertDates lib flags names i vs = .error (.error (.timeParse s)) := by
  induction vs generalizing i with
  | nil =>
    obtain ⟨k, s, name, hk, -⟩ := hbad
    simp at hk
  | cons v vs ih =>
    have hi : i < names.length := by simp at hlen; omega
    have hname : names[i]? = some names[i] := List.getElem?_eq_getElem hi
    have htail : ∀ (k : Nat) v name, vs[k]? = some v → names[i + 1 + k]? = some name →
        isDateColumn flags name = true → v = .null ∨ ∃ s, v = .str s :=
      fun k v name hv hn hd =>
        htext (k + 1) v name (by simpa using hv) (by rwa [← Nat.add_assoc, Nat.add_right_comm]) hd
    have hrec := ih (i + 1) (by simp at hlen; omega) htail
    obtain ⟨k, s, name, hk, hn, hd, hp⟩ := hbad
    have h0 := htext 0 v names[i] (by simp) (by simp)
    -- the failing value is either this one or one of the tail
    have hcase : (k = 0 ∧ v = .str s ∧ name = names[i]) ∨
        ∃ s1, convertDates lib flags names (i + 1) vs = .error (.error (.timeParse s1)) := by
      cases k with
      | zero =>
        left
        simp only [List.getElem?_cons_zero, Option.some.injEq] at hk
        simp only [Nat.add_zero, hname, Option.some.injEq] at hn
        exact ⟨rfl, hk, hn.symm⟩
      | succ k =>
        right
        exact hrec ⟨k, s, name, by simpa using hk,
          by rwa [Nat.add_assoc, Nat.add_comm 1 k], hd, hp⟩
    by_cases hsel : isDateColumn flags names[i] = true
    · rcases h0 hsel with rfl | ⟨s0, rfl⟩
      · rcases hcase with ⟨-, h, -⟩ | ⟨s1, h1⟩
        · cases h
        · exact ⟨s1, by simp [convertDates, h1]⟩
      · cases hp0 : lib.timeParse s0 with
        | none => exact ⟨s0, by simp [convertDates, hname, hsel, hp0]⟩
        | some t =>
          rcases hcase with ⟨-, h, -⟩ | ⟨s1, h1⟩
          · cases h; rw [hp] at hp0; cases hp0
          · exact ⟨s1, by simp [convertDates, hname, hsel, hp0, h1]⟩
    · have hsel2 : isDateColumn flags names[i] = false := by simpa using hsel
      rcases hcase with ⟨-, -, h⟩ | ⟨s1, h1⟩
      · rw [h] at hd; exact absurd hd hsel
      · exact ⟨s1, by cases v <;> simp [convertDates, hname, hsel2, h1]⟩

theorem bulkInsert_of_convertDates {F T : Type} (lib : Lib F T) (flags : Flags)
    (m : MSInsert F T) (values : List (Value F T)) (hdb : m.db.NeverFails)
    (hnames : m.columnNames = none ∨
      m.columnNames = some (m.columnMappings.map ColumnMapping.target)) :
    (∀ o, convertDates lib flags (m.columnMappings.map ColumnMapping.target) 0 values
        = .error o →
      (m.bulkInsert lib flags values).2 = o ∧
      (m.bulkInsert lib flags values).1.db.log = m.db.log ++ openingCalls m) ∧
    (∀ vs, convertDates lib flags (m.columnMappings.map ColumnMapping.target) 0 values
        = .ok vs →
      (m.bulkInsert lib flags values).2 = .ok ∧
      (m.bulkInsert lib flags values).1.db.log = m.db.log ++ openingCalls m ++ [.exec vs]
        ++ (if flags.bulkLimit ≤ incr64 m.bulkCount then flushCalls else [])) := by
  obtain ⟨⟨l, fails⟩, tnx, tn, cms, stmt, sql, cn, bc⟩ := m
  have hf : ∀ l e, fails l e = false := hdb
  simp only at hnames
  constructor
  · intro o ho
    rcases hnames with h | h <;> cases stmt <;>
      simp [MSInsert.bulkInsert, MSInsert.initColumnNames, MSInsert.bulkOpen, DB.call, hf, h,
        ho, openingCalls]
  · intro vs hvs
    by_cases hflush : flags.bulkLimit ≤ incr64 bc
    · rcases hnames with h | h <;> cases stmt <;>
        simp [MSInsert.bulkInsert, MSInsert.initColumnNames, MSInsert.bulkOpen, DB.call, hf, h,
          hvs, openingCalls, MSInsert.bulkFlush, hflush, flushCalls]
    · rcases hnames with h | h <;> cases stmt <;>
        simp [MSInsert.bulkInsert, MSInsert.initColumnNames, MSInsert.bulkOpen, DB.call, hf, h,
          hvs, openingCalls, MSInsert.bulkFlush, hflush]

theorem isDateColumn_iff (flags : Flags) (c : GoString) :
    isDateColumn flags c = true ↔
      (flags.dateFields ≠ [] ∧
        ∃ e ∈ strings.Split flags.dateFields 44, strings.TrimSpace e = c) ∨
      (flags.dateFields = [] ∧ strings.Contains c (go "date") = true) := by
  unfold isDateColumn
  by_cases h : flags.dateFields = []
  · simp [h]
  · have hl : flags.dateFields.length ≠ 0 := fun e => h (List.length_eq_zero.1 e)
    simp [h, hl]

/-- Date conversion in a batched accept on a database that does not fail, for a row
with at most one value per column mapping whose non-null values in date columns are
all text.
A column is a date column when it equals a trimmed entry of the given list
`-date-columns`, or, without a list, when its name contains `date`.  When every text in
a date column parses, accept returns no error and hands to the bulk copy the row in
which exactly those texts are replaced by their dates and every other value is
unchanged.  When some text in a date column does not parse, accept returns the parse
error and the row is not handed to the bulk copy. -/
theorem bulkInsert_date_columns {F T : Type} (lib : Lib F T) (flags : Flags)
    (m : MSInsert F T) (values : List (Value F T)) (hdb : m.db.NeverFails)
    (hnames : m.columnNames = none ∨
      m.columnNames = some (m.columnMappings.map ColumnMapping.target))
    (hlen : values.length ≤ m.columnMappings.length)
    (htext : ∀ p ∈ values.zip m.columnMappings,
      isDateColumn flags p.2.target = true → p.1.isNullOrStr = true) :
    (∀ c, isDateColumn flags c = true ↔
      (flags.dateFields ≠ [] ∧
        ∃ e ∈ strings.Split flags.dateFields 44, strings.TrimSpace e = c) ∨
      (flags.dateFields = [] ∧ strings.Contains c (go "date") = true)) ∧
    ((∀ p ∈ values.zip m.columnMappings, isDateColumn flags p.2.target = true →
        ∀ s, p.1 = .str s → lib.timeParse s ≠ none) →
      (m.bulkInsert lib flags values).2 = .ok ∧
      (m.bulkInsert lib flags values).1.db.log = m.db.log ++ openingCalls m
        ++ [.exec (List.zipWith (dateValue lib flags)
              (m.columnMappings.map ColumnMapping.target) values)]
        ++ (if flags.bulkLimit ≤ incr64 m.bulkCount then flushCalls else [])) ∧
    ((∃ p ∈ values.zip m.columnMappings, isDateColumn flags p.2.target = true ∧
        ∃ s, p.1 = .str s ∧ lib.timeParse s = none) →
      (∃ s, (m.bulkInsert lib flags values).2 = .error (.timeParse s)) ∧
      (m.bulkInsert lib flags values).1.db.log = m.db.log ++ openingCalls m) := by
  have hzip : ∀ (k : Nat) v name, values[k]? = some v →
      (m.columnMappings.map ColumnMapping.target)[0 + k]? = some name →
      ∃ cm, (v, cm) ∈ values.zip m.columnMappings ∧ cm.target = name := by
    intro k v name hv hn
    rw [Nat.zero_add, List.getElem?_map] at hn
    cases hcm : m.columnMappings[k]? with
    | none => rw [hcm] at hn; simp at hn
    | some cm =>
      rw [hcm] at hn
      simp only [Option.map_some', Option.some.injEq] at hn
      refine ⟨cm, ?_, hn⟩
      exact List.getElem?_mem (List.getElem?_zip_eq_some.2 ⟨hv, hcm⟩)
  have hlen0 : 0 + values.length ≤ (m.columnMappings.map ColumnMapping.target).length := by
    simpa using hlen
  obtain ⟨herr, hok⟩ := bulkInsert_of_convertDates lib flags m values hdb hnames
  refine ⟨isDateColumn_iff flags, ?_, ?_⟩
  · intro hparse
    have hconv := convertDates_ok lib flags (m.columnMappings.map ColumnMapping.target)
      values 0 hlen0 (by
        intro k v name hv hn hd
        obtain ⟨cm, hmem, rfl⟩ := hzip k v name hv hn
        have h1 := htext _ hmem hd
        cases v with
        | null => exact Or.inl rfl
        | str s =>
          right
          cases hp : lib.timeParse s with
          | none => exact absurd hp (hparse _ hmem hd s rfl)
          | some t => exact ⟨s, t, rfl, hp⟩
        | float64 x => simp [Value.isNullOrStr] at h1
        | time t => simp [Value.isNullOrStr] at h1
        | int n => simp [Value.isNullOrStr] at h1
        | bool b => simp [Value.isNullOrStr] at h1)
    rw [List.drop_zero] at hconv
    exact hok _ hconv
  · rintro ⟨p, hmem, hd, s, hs, hp⟩
    obtain ⟨k, hk⟩ := List.getElem?_of_mem hmem
    obtain ⟨hkv, hkc⟩ := List.getElem?_zip_eq_some.1 hk
    obtain ⟨s1, hconv⟩ := convertDates_error lib flags
      (m.columnMappings.map ColumnMapping.target) values 0 hlen0 (by
        intro k v name hv hn hd
        obtain ⟨cm, hmem, rfl⟩ := hzip k v name hv hn
        have h1 := htext _ hmem hd
        cases v with
        | null => exact Or.inl rfl
        | str s => exact Or.inr ⟨s, rfl⟩
        | float64 x => simp [Value.isNullOrStr] at h1
        | time t => simp [Value.isNullOrStr] at h1
        | int n => simp [Value.isNullOrStr] at h1
        | bool b => simp [Value.isNullOrStr] at h1)
      ⟨k, s, p.2.target, by rw [hkv, hs], by rw [Nat.zero_add, List.getElem?_map, hkc]; rfl,
        hd, hp⟩
    obtain ⟨h1, h2⟩ := herr _ hconv
    exact ⟨⟨s1, h1⟩, h2⟩

/-- Columns `start_date` and `name`, row `2024-02-29`, `x`: the date conversion applies. -/
theorem bulkInsert_date_columns_witness :
    (sampleDateRow.length ≤ sampleDateSink.columnMappings.length ∧
      ∀ p ∈ sampleDateRow.zip sampleDateSink.columnMappings,
        isDateColumn (sampleFlags 3) p.2.target = true → p.1.isNullOrStr = true) ∧
    (sampleDateSink.bulkInsert sampleLib (sampleFlags 3) sampleDateRow).2 = .ok ∧
    (sampleDateSink.bulkInsert sampleLib (sampleFlags 3) sampleDateRow).1.db.log
      = sampleDateSink.db.log ++ openingCalls sampleDateSink
        ++ [.exec (List.zipWith (dateValue sampleLib (sampleFlags 3))
              (sampleDateSink.columnMappings.map ColumnMapping.target) sampleDateRow)]
        ++ (if (sampleFlags 3).bulkLimit ≤ incr64 sampleDateSink.bulkCount
            then flushCalls else []) :=
  ⟨⟨by decide, by decide⟩,
    (bulkInsert_date_columns sampleLib (sampleFlags 3) sampleDateSink sampleDateRow
      (fun _ _ => rfl) (Or.inl rfl) (by decide) (by decide)).2.1 (by
        intro p hp hd s hs
        have hp2 : p = (.str (go "2024-02-29"), ⟨.str (go "$d"), go "start_date"⟩) ∨
            p = (.str (go "x"), ⟨.str (go "$n"), go "name"⟩) := by
          simpa [sampleDateRow, sampleDateSink, MSInsert.new, sampleDateMappings] using hp
        rcases hp2 with rfl | rfl
        · cases hs; decide
        · exact absurd hd (by decide))⟩

/-- Columns `start_date` and `name`: the text `2024-02-29` of `start_date` is handed on
as a date and `x` unchanged; the text `2024-02-30` makes accept return the parse error
with no row handed on; with `-date-columns " name ,other"` the text of `name` is
parsed and that of `start_date` is not. -/
theorem bulkInsert_date_examples :
    (sampleDateSink.bulkInsert sampleLib (sampleFlags 3)
        [.str (go "2024-02-29"), .str (go "x")]).1.db.log
      = [.begin, .prepare (.copyIn (go "t") [go "start_date", go "name"]),
          .exec [.time (2024, 2, 29), .str (go "x")]] ∧
    (sampleDateSink.bulkInsert sampleLib (sampleFlags 3)
        [.str (go "2024-02-30"), .str (go "x")]).2 = .error (.timeParse (go "2024-02-30")) ∧
    (sampleDateSink.bulkInsert sampleLib (sampleFlags 3)
        [.str (go "2024-02-30"), .str (go "x")]).1.db.log
      = [.begin, .prepare (.copyIn (go "t") [go "start_date", go "name"])] ∧
    (sampleDateSink.bulkInsert sampleLib
        { sampleFlags 3 with dateFields := go " name ,other" }
        [.str (go "2024-02-30"), .str (go "2001-12-31")]).1.db.log
      = [.begin, .prepare (.copyIn (go "t") [go "start_date", go "name"]),
          .exec [.str (go "2024-02-30"), .time (2001, 12, 31)]] := by
  decide

/-- C5: a value in a date column that is neither `nil` nor a string does not make
accept return an error: accept panics on the type assertion `v.(string)`, and no row
is handed to the bulk copy.  This happens for a `float64` in the column `start_date`,
for a CSV file whose field for that column is `1E10`, which the evaluator turns into
a `float64`, and for the configured number 0 mapped to the column `validated`. -/
theorem bulkInsert_date_column_float_panics :
    (sampleDateSink.bulkInsert sampleLib (sampleFlags 3)
        [.float64 10000000000, .str (go "x")]).2 = .panic .typeAssertion ∧
    (CSVMigration.migrate sampleLib (sampleFlags 3)
        { insertor := sampleDateSink,
          r := NewReader [[go "d", go "n"], [go "1E10", go "x"]],
          columnMappings := sampleDateMappings } true).2 = .panic .typeAssertion ∧
    (CSVMigration.migrate sampleLib (sampleFlags 3)
        { insertor := sampleDateSink,
          r := NewReader [[go "d", go "n"], [go "1E10", go "x"]],
          columnMappings := sampleDateMappings } true).1.db.log
      = [.begin, .prepare (.copyIn (go "t") [go "start_date", go "name"])] ∧
    (CSVMigration.migrate sampleLib (sampleFlags 3)
        { insertor := MSInsert.new sampleDB (go "t") [⟨.int 0, go "validated"⟩],
          r := NewReader [[go "d"], [go "x"]],
          columnMappings := [⟨.int 0, go "validated"⟩] } true).2 = .panic .typeAssertion := by
  decide

theorem postProcess_cases {F T : Type} (lib : Lib F T) (value : GoString)
    (hne : strings.TrimSpace value ≠ []) :
    (∀ x, postProcess lib value = .float64 x ↔
      strings.Contains (strings.TrimSpace value) (go "E") = true ∧
        lib.ParseFloat (strings.TrimSpace value) = some x) ∧
    ((strings.Contains (strings.TrimSpace value) (go "E") = false ∨
        lib.ParseFloat (strings.TrimSpace value) = none) →
      postProcess lib value = .str (strings.TrimSpace value)) := by
  constructor
  · intro x
    by_cases hE : strings.Contains (strings.TrimSpace value) (go "E") = true
    · cases hp : lib.ParseFloat (strings.TrimSpace value) with
      | none => simp [postProcess, hne, hE, hp]
      | some y => simp [postProcess, hne, hE, hp]
    · simp [postProcess, hne, hE]
  · rintro (hE | hp)
    · simp [postProcess, hne, hE]
    · by_cases hE : strings.Contains (strings.TrimSpace value) (go "E") = true
      · simp [postProcess, hne, hE, hp]
      · simp [postProcess, hne, hE]

/-- C6: the output of a mapping source `$...` is the post-processed text computed for
it.  When the trimmed text is not empty, the output is a `float64` exactly when the
trimmed text contains `E` and `ParseFloat` accepts it, and it is then the parsed
number; in every other case the output is the trimmed text.  The text `abc` stays a
text, and `1E10` becomes the number that `ParseFloat` gives for it. -/
theorem nonliteral_output_numeric_iff {F T : Type} (lib : Lib F T) (flags : Flags)
    (ni : NameIndex) (record : List GoString) (columnName : GoString) (out : Value F T)
    (h : evalSource lib flags ni record (.str (go "$" ++ columnName)) = .ok out) :
    (∃ value, rawValue lib flags ni record columnName = .ok value ∧
      out = postProcess lib value ∧
      (strings.TrimSpace value ≠ [] →
        (∀ x, out = .float64 x ↔
          strings.Contains (strings.TrimSpace value) (go "E") = true ∧
            lib.ParseFloat (strings.TrimSpace value) = some x) ∧
        ((strings.Contains (strings.TrimSpace value) (go "E") = false ∨
            lib.ParseFloat (strings.TrimSpace value) = none) →
          out = .str (strings.TrimSpace value)))) ∧
    postProcess lib (go "abc") = .str (go "abc") ∧
    (∀ x, lib.ParseFloat (go "1E10") = some x → postProcess lib (go "1E10") = .float64 x) := by
  refine ⟨?_, ?_, ?_⟩
  · rw [evalSource_dollar] at h
    cases hraw : rawValue lib flags ni record columnName with
    | error e => rw [hraw] at h; cases h
    | ok value =>
      rw [hraw] at h
      simp only [Except.ok.injEq] at h
      subst h
      exact ⟨value, rfl, rfl, fun hne => postProcess_cases lib value hne⟩
  · have ht : strings.TrimSpace (go "abc") = go "abc" := by decide
    have hne : strings.TrimSpace (go "abc") ≠ [] := by decide
    have hE : strings.Contains (strings.TrimSpace (go "abc")) (go "E") = false := by decide
    rw [(postProcess_cases lib (go "abc") hne).2 (Or.inl hE), ht]
  · intro x hx
    have ht : strings.TrimSpace (go "1E10") = go "1E10" := by decide
    have hne : strings.TrimSpace (go "1E10") ≠ [] := by decide
    have hE : strings.Contains (strings.TrimSpace (go "1E10")) (go "E") = true := by decide
    exact ((postProcess_cases lib (go "1E10") hne).1 x).2 ⟨hE, by rw [ht]; exact hx⟩

/-- C6 witness: header `[a]`, row `[1E10]`, source `$a`. -/
theorem nonliteral_output_numeric_iff_witness :
    evalSource sampleLib (sampleFlags 3) (makeNameIndex [go "a"]) [go " 1E10 "]
        (.str (go "$" ++ go "a")) = .ok (.float64 10000000000) ∧
    ∃ value, rawValue sampleLib (sampleFlags 3) (makeNameIndex [go "a"]) [go " 1E10 "] (go "a")
        = .ok value ∧
      Value.float64 10000000000 = postProcess sampleLib value :=
  ⟨by decide,
    (nonliteral_output_numeric_iff sampleLib (sampleFlags 3) (makeNameIndex [go "a"])
      [go " 1E10 "] (go "a") (.float64 10000000000) (by decide)).1.imp
      (fun _ h => ⟨h.1, h.2.1⟩)⟩

theorem slice_tail (s : GoString) (n : Nat) (h : n ≤ s.length) :
    slice s ((s.length : Int) - (n : Int)) (s.length : Int) = some (s.drop (s.length - n)) := by
  have h1 : (0 : Int) ≤ (s.length : Int) - (n : Int) := by omega
  have h2 : (s.length : Int) - (n : Int) ≤ (s.length : Int) := by omega
  rw [slice, if_pos ⟨h1, h2, le_refl _⟩]
  have e1 : ((s.length : Int) - (n : Int)).toNat = s.length - n := by omega
  have e2 : ((s.length : Int)).toNat = s.length := by simp
  rw [e1, e2, List.take_of_length_le (by simp)]

theorem rawValue_max20 {F T : Type} (lib : Lib F T) (flags : Flags) (ni : NameIndex)
    (record : List GoString) (col f : GoString) (hmax : flags.max20 = true)
    (hcol : col = go "RECALL_LOG_ID" ∨ col = go "RECALL_TRACE_ID")
    (hfield : field ni record col = .ok f) (hlen : 20 < f.length) :
    rawValue lib flags ni record col = .ok (f.drop (f.length - 20)) := by
  have hs := slice_tail f 20 (by omega)
  simp only [Nat.cast_ofNat] at hs
  rcases hcol with rfl | rfl
  · have h1 : strings.HasPrefix (go "RECALL_LOG_ID") (go "hash(") = false := by decide
    have h2 : strings.HasPrefix (go "RECALL_LOG_ID") (go "replace") = false := by decide
    have h3 : strings.HasPrefix (go "RECALL_LOG_ID") (go "concat") = false := by decide
    simp [rawValue, h1, h2, h3, hfield, hmax, hlen, hs]
  · have h1 : strings.HasPrefix (go "RECALL_TRACE_ID") (go "hash(") = false := by decide
    have h2 : strings.HasPrefix (go "RECALL_TRACE_ID") (go "replace") = false := by decide
    have h3 : strings.HasPrefix (go "RECALL_TRACE_ID") (go "concat") = false := by decide
    simp [rawValue, h1, h2, h3, hfield, hmax, hlen, hs]

theorem rawValue_function_flags {F T : Type} (lib : Lib F T) (flags flags2 : Flags)
    (ni : NameIndex) (record : List GoString) (columnName : GoString)
    (h : strings.HasPrefix columnName (go "hash(") = true ∨
      strings.HasPrefix columnName (go "replace") = true ∨
      strings.HasPrefix columnName (go "concat") = true) :
    rawValue lib flags ni record columnName = rawValue lib flags2 ni record columnName := by
  unfold rawValue
  by_cases h1 : strings.HasPrefix columnName (go "hash(") = true
  · simp [h1]
  · by_cases h2 : strings.HasPrefix columnName (go "replace") = true
    · simp [h1, h2]
    · by_cases h3 : strings.HasPrefix columnName (go "concat") = true
      · simp [h1, h2, h3]
      · rcases h with h | h | h
        · exact absurd h h1
        · exact absurd h h2
        · exact absurd h h3

/-- C7 as amended: for a header, a data row of the same width and a name `col` of the
header that begins with none of `hash(`, `replace`, `concat`, the text taken for
`$col` is: with `-max20` on, `col` equal to `RECALL_LOG_ID` or `RECALL_TRACE_ID` (the
name of the source column; the target column plays no part) and a raw field of more
than 20 bytes, the last 20 bytes of the raw field; with `-max20` off, or `col` not one
of these two names, or a raw field of at most 20 bytes, the raw field unchanged.  The
text computed for a source that begins with `hash(`, `replace` or `concat` does not
depend on the flags.  The raw field is the field of the row at the last header
position of `col`. -/
theorem max20_policy {F T : Type} (lib : Lib F T) (flags : Flags)
    (header record : List GoString) (col : GoString)
    (hw : record.length = header.length) (hmem : col ∈ header)
    (hhash : strings.HasPrefix col (go "hash(") = false)
    (hreplace : strings.HasPrefix col (go "replace") = false)
    (hconcat : strings.HasPrefix col (go "concat") = false) :
    (flags.max20 = true → (col = go "RECALL_LOG_ID" ∨ col = go "RECALL_TRACE_ID") →
      20 < (rawField header record col).length →
      rawValue lib flags (makeNameIndex header) record col
        = .ok ((rawField header record col).drop ((rawField header record col).length - 20)) ∧
      ((rawField header record col).drop ((rawField header record col).length - 20)).length
        = 20 ∧
      ((rawField header record col).drop
        ((rawField header record col).length - 20)).IsSuffix (rawField header record col)) ∧
    ((flags.max20 = false ∨ (col ≠ go "RECALL_LOG_ID" ∧ col ≠ go "RECALL_TRACE_ID") ∨
        (rawField header record col).length ≤ 20) →
      rawValue lib flags (makeNameIndex header) record col
        = .ok (rawField header record col)) ∧
    (∀ target, evalMappings lib flags (makeNameIndex header) record
        [⟨.str (go "$" ++ col), target⟩] =
      match rawValue lib flags (makeNameIndex header) record col with
      | .error e => .error e
      | .ok value => .ok [postProcess lib value]) ∧
    (∀ (flags2 : Flags) (columnName : GoString),
      (strings.HasPrefix columnName (go "hash(") = true ∨
        strings.HasPrefix columnName (go "replace") = true ∨
        strings.HasPrefix columnName (go "concat") = true) →
      rawValue lib flags (makeNameIndex header) record columnName
        = rawValue lib flags2 (makeNameIndex header) record columnName) ∧
    (∃ i : Nat, header[i]? = some col ∧ (∀ j, i < j → header[j]? ≠ some col) ∧
      record[i]? = some (rawField header record col)) := by
  have hfield := (field_of_mem header record col hw hmem).1
  refine ⟨?_, ?_, ?_, ?_, (field_of_mem header record col hw hmem).2⟩
  · intro hmax hcol hlen
    refine ⟨rawValue_max20 lib flags _ record col _ hmax hcol hfield hlen, ?_,
      List.drop_suffix _ _⟩
    rw [List.length_drop]; omega
  · intro h
    exact rawValue_plain lib flags _ record col _ hhash hreplace hconcat hfield h
  · intro target
    simp only [evalMappings, evalSource_dollar]
    cases rawValue lib flags (makeNameIndex header) record col <;> rfl
  · intro flags2 columnName h
    exact rawValue_function_flags lib flags flags2 _ record columnName h

/-- C7 witness: `-max20` on, header `[id, RECALL_LOG_ID]` and a row whose second field
has 30 bytes: the text taken is the last 20 bytes of that field. -/
theorem max20_policy_witness :
    ([go "1", go "abcdefghijklmnopqrstuvwxyz0123"].length
        = [go "id", go "RECALL_LOG_ID"].length ∧
      go "RECALL_LOG_ID" ∈ [go "id", go "RECALL_LOG_ID"] ∧
      [go "1", go "abcdefghijklmnopqrstuvwxyz0123"][1]?
        = some (go "abcdefghijklmnopqrstuvwxyz0123") ∧
      20 < (go "abcdefghijklmnopqrstuvwxyz0123").length) ∧
    rawValue sampleLib { sampleFlags 3 with max20 := true }
        (makeNameIndex [go "id", go "RECALL_LOG_ID"])
        [go "1", go "abcdefghijklmnopqrstuvwxyz0123"] (go "RECALL_LOG_ID")
      = .ok (go "klmnopqrstuvwxyz0123") :=
  ⟨⟨by decide, by decide, by decide, by decide⟩,
    ((max20_policy sampleLib { sampleFlags 3 with max20 := true }
      [go "id", go "RECALL_LOG_ID"] [go "1", go "abcdefghijklmnopqrstuvwxyz0123"]
      (go "RECALL_LOG_ID") (by decide) (by decide)
      (by decide) (by decide) (by decide)).1 rfl (Or.inl rfl) (by decide)).1.trans
      (by decide)⟩

/-- C7 counterexample, with `-max20` on and a field of 30 bytes: the mapping from the
source column `x` to the target column `RECALL_LOG_ID` takes the whole field, and the
mapping from the source column `RECALL_LOG_ID` to the target column `other` takes the
last 20 bytes. -/
theorem max20_follows_source_column :
    evalMappings sampleLib { sampleFlags 3 with max20 := true } (makeNameIndex [go "x"])
        [go "abcdefghijklmnopqrstuvwxyz0123"] [⟨.str (go "$x"), go "RECALL_LOG_ID"⟩]
      = .ok [.str (go "abcdefghijklmnopqrstuvwxyz0123")] ∧
    evalMappings sampleLib { sampleFlags 3 with max20 := true }
        (makeNameIndex [go "RECALL_LOG_ID"])
        [go "abcdefghijklmnopqrstuvwxyz0123"] [⟨.str (go "$RECALL_LOG_ID"), go "other"⟩]
      = .ok [.str (go "klmnopqrstuvwxyz0123")] := by
  decide

theorem go_replace_source (inner : GoString) :
    go "$replace(" ++ inner ++ go ")" = go "$" ++ (go "replace(" ++ inner ++ go ")") := by
  have : go "$replace(" = go "$" ++ go "replace(" := by decide
  rw [this]; simp [List.append_assoc]

theorem HasPrefix_append_left (a x p : GoString) (h : p.length ≤ a.length) :
    strings.HasPrefix (a ++ x) p = strings.HasPrefix a p := by
  unfold strings.HasPrefix
  induction p generalizing a with
  | nil => simp [List.isPrefixOf]
  | cons c p ih =>
    cases a with
    | nil => simp at h
    | cons d a =>
      have hrec := ih a (by simpa using h)
      simp only [List.cons_append, List.isPrefixOf]
      exact congrArg (fun b => (c == d && b)) hrec

theorem rawValue_replace {F T : Type} (lib : Lib F T) (flags : Flags)
    (header record : List GoString) (t0 old new : GoString)
    (hw : record.length = header.length)
    (h0 : (44 : UInt8) ∉ t0) (h1 : (44 : UInt8) ∉ old) (h2 : (44 : UInt8) ∉ new)
    (hcol : strings.TrimSpace t0 ∈ header) :
    rawValue lib flags (makeNameIndex header) record
        (go "replace(" ++ strings.Join [t0, old, new] 44 ++ go ")") =
      match lib.MustCompile old with
      | none => .error (.regexpCompile old)
      | some re => .ok (re (rawField header record (strings.TrimSpace t0)) new) := by
  have hinner : slice (go "replace(" ++ strings.Join [t0, old, new] 44 ++ go ")") 8
      (((go "replace(" ++ strings.Join [t0, old, new] 44 ++ go ")").length : Int) - 1)
      = some (strings.Join [t0, old, new] 44) :=
    slice_middle (go "replace(") (strings.Join [t0, old, new] 44) (go ")")
  have hpre1 : strings.HasPrefix (go "replace(" ++ strings.Join [t0, old, new] 44 ++ go ")")
      (go "hash(") = false := by
    rw [List.append_assoc, HasPrefix_append_left _ _ _ (by decide)]; decide
  have hpre2 : strings.HasPrefix (go "replace(" ++ strings.Join [t0, old, new] 44 ++ go ")")
      (go "replace") = true := by
    rw [List.append_assoc, HasPrefix_append_left _ _ _ (by decide)]; decide
  have hsplit : strings.Split (strings.Join [t0, old, new] 44) 44 = [t0, old, new] :=
    Split_Join 44 [t0, old, new] (by simp) (by
      intro t ht
      simp only [List.mem_cons, List.mem_singleton, List.not_mem_nil, or_false] at ht
      rcases ht with rfl | rfl | rfl <;> assumption)
  have hfield := (field_of_mem header record _ hw hcol).1
  rw [rawValue, hpre1, hpre2]
  simp only [Bool.false_eq_true, if_false, if_true, hinner, hsplit, hfield]

/-- C8 as amended: for a header, a data row of the same width and three tokens
without comma of which the first, trimmed, is a name of the header,
`$replace(t0,old,new)` compiles `old` as it stands and yields the post-processed
result of `ReplaceAllString` on the raw field of that column with `new` as it stands;
it panics when `old` does not compile.  Only the column token is trimmed: white space
around it does not change the result, and white space or quotes in the second and
third token are part of the pattern and of the replacement.  The raw field is the
field of the row at the last header position of the column. -/
theorem replace_value {F T : Type} (lib : Lib F T) (flags : Flags)
    (header record : List GoString) (t0 old new : GoString)
    (hw : record.length = header.length)
    (h0 : (44 : UInt8) ∉ t0) (h1 : (44 : UInt8) ∉ old) (h2 : (44 : UInt8) ∉ new)
    (hcol : strings.TrimSpace t0 ∈ header) :
    evalSource lib flags (makeNameIndex header) record
        (.str (go "$replace(" ++ strings.Join [t0, old, new] 44 ++ go ")")) =
      (match lib.MustCompile old with
        | none => .error (.regexpCompile old)
        | some re =>
          .ok (postProcess lib (re (rawField header record (strings.TrimSpace t0)) new))) ∧
    (∀ t0x, (44 : UInt8) ∉ t0x → strings.TrimSpace t0x = strings.TrimSpace t0 →
      evalSource lib flags (makeNameIndex header) record
          (.str (go "$replace(" ++ strings.Join [t0x, old, new] 44 ++ go ")")) =
        evalSource lib flags (makeNameIndex header) record
          (.str (go "$replace(" ++ strings.Join [t0, old, new] 44 ++ go ")"))) ∧
    (∃ i : Nat, header[i]? = some (strings.TrimSpace t0) ∧
      (∀ j, i < j → header[j]? ≠ some (strings.TrimSpace t0)) ∧
      record[i]? = some (rawField header record (strings.TrimSpace t0))) := by
  have key : ∀ t, (44 : UInt8) ∉ t → strings.TrimSpace t ∈ header →
      evalSource lib flags (makeNameIndex header) record
        (.str (go "$replace(" ++ strings.Join [t, old, new] 44 ++ go ")")) =
      (match lib.MustCompile old with
        | none => .error (.regexpCompile old)
        | some re =>
          .ok (postProcess lib (re (rawField header record (strings.TrimSpace t)) new))) := by
    intro t ht hmem
    rw [go_replace_source, evalSource_dollar,
      rawValue_replace lib flags header record t old new hw ht h1 h2 hmem]
    cases lib.MustCompile old <;> rfl
  refine ⟨key t0 h0 hcol, ?_, (field_of_mem header record _ hw hcol).2⟩
  intro t0x hx he
  rw [key t0 h0 hcol, key t0x hx (by rw [he]; exact hcol), he]

/-- C8 witness: header `[id, col]`, row `[1, banana]`: the source
`$replace( col ,a,b)` yields the text `bbnbnb`. -/
theorem replace_value_witness :
    ([go "1", go "banana"].length = [go "id", go "col"].length ∧
      (44 : UInt8) ∉ go " col " ∧ (44 : UInt8) ∉ go "a" ∧ (44 : UInt8) ∉ go "b" ∧
      strings.TrimSpace (go " col ") ∈ [go "id", go "col"] ∧
      go "$replace(" ++ strings.Join [go " col ", go "a", go "b"] 44 ++ go ")"
        = go "$replace( col ,a,b)") ∧
    evalSource sampleLib (sampleFlags 3) (makeNameIndex [go "id", go "col"])
        [go "1", go "banana"]
        (.str (go "$replace(" ++ strings.Join [go " col ", go "a", go "b"] 44 ++ go ")"))
      = .ok (.str (go "bbnbnb")) :=
  ⟨⟨by decide, by decide, by decide, by decide, by decide, by decide⟩,
    (replace_value sampleLib (sampleFlags 3) [go "id", go "col"] [go "1", go "banana"]
      (go " col ") (go "a") (go "b") (by decide) (by decide) (by decide) (by decide)
      (by decide)).1.trans (by decide)⟩

/-- Header `[col]`, row `[banana]`: `$replace( col ,a,b)` yields `bbnbnb`. -/
theorem replace_value_example :
    evalSource sampleLib (sampleFlags 3) (makeNameIndex [go "col"]) [go "banana"]
        (.str (go "$replace( col ,a,b)")) = .ok (.str (go "bbnbnb")) := by
  decide

/-- C8 counterexample: on the field `a a`, `$replace(col,a,b)` yields `b b` and
`$replace(col, a,b)`, with a blank after the comma, yields `ab`, because the pattern
is then ` a`; on the field `banana`, `$replace(col,"a","b")` yields `banana`, because
the pattern is `"a"` with its quotes. -/
theorem replace_pattern_not_trimmed :
    evalSource sampleLib (sampleFlags 3) (makeNameIndex [go "col"]) [go "a a"]
        (.str (go "$replace(col,a,b)")) = .ok (.str (go "b b")) ∧
    evalSource sampleLib (sampleFlags 3) (makeNameIndex [go "col"]) [go "a a"]
        (.str (go "$replace(col, a,b)")) = .ok (.str (go "ab")) ∧
    evalSource sampleLib (sampleFlags 3) (makeNameIndex [go "col"]) [go "banana"]
        (.str (go "$replace(col,\"a\",\"b\")")) = .ok (.str (go "banana")) := by
  decide

theorem go_quote : go "\x27" = [39] := by decide

theorem HasPrefix_quote (p : GoString) :
    strings.HasPrefix p (go "\x27") = decide (p.head? = some 39) := by
  rw [go_quote]
  cases p with
  | nil => simp [strings.HasPrefix, List.isPrefixOf]
  | cons c p =>
    simp only [strings.HasPrefix, List.isPrefixOf, List.head?_cons, Option.some.injEq,
      Bool.and_true]
    by_cases h : c = 39
    · subst h; simp
    · have h2 : ¬ ((39 : UInt8) = c) := fun e => h e.symm
      simp [h, h2]

theorem HasSuffix_quote (p : GoString) :
    strings.HasSuffix p (go "\x27") = decide (p.getLast? = some 39) := by
  have h := HasPrefix_quote p.reverse
  rw [go_quote] at h ⊢
  simp only [strings.HasPrefix, List.head?_reverse] at h
  simpa [strings.HasSuffix] using h

theorem slice_strip (p : GoString) (h : 2 ≤ p.length) :
    slice p 1 ((p.length : Int) - 1) = some ((p.drop 1).dropLast) := by
  have h2 : (1 : Int) ≤ (p.length : Int) - 1 := by omega
  have h3 : (p.length : Int) - 1 ≤ (p.length : Int) := by omega
  rw [slice, if_pos ⟨by omega, h2, h3⟩]
  have e1 : ((p.length : Int) - 1).toNat = p.length - 1 := by omega
  have e2 : (1 : Int).toNat = 1 := rfl
  rw [e1, e2, List.dropLast_eq_take, List.length_drop]

theorem concatParts_of_parts (header record : List GoString)
    (hw : record.length = header.length) (tokens : List GoString)
    (hparts : ∀ t ∈ tokens, isQuoted (strings.TrimSpace t) = true ∨
      (strings.TrimSpace t ∈ header ∧
        ¬ ((strings.TrimSpace t).head? = some 39 ∧ (strings.TrimSpace t).getLast? = some 39)))
    (value : GoString) :
    concatParts (makeNameIndex header) record tokens value =
      .ok (value ++ (tokens.map
        (fun t => partText header record (strings.TrimSpace t))).flatten) := by
  induction tokens generalizing value with
  | nil => simp [concatParts]
  | cons t ts ih =>
    have hrec := fun v => ih (fun u hu => hparts u (List.mem_cons_of_mem _ hu)) v
    rcases hparts t (List.mem_cons_self _ _) with hq | ⟨hmem, hnq⟩
    · have hq2 := hq
      simp only [isQuoted, Bool.and_eq_true, decide_eq_true_eq] at hq2
      obtain ⟨⟨hlen, hh⟩, hl⟩ := hq2
      simp only [concatParts, HasPrefix_quote, HasSuffix_quote, hh, hl, decide_True,
        Bool.and_self, if_true, slice_strip _ hlen, hrec, List.map_cons, List.flatten_cons,
        partText, hq, List.append_assoc]
    · have hnotq : isQuoted (strings.TrimSpace t) = false := by
        simp only [isQuoted, Bool.and_eq_false_iff, decide_eq_false_iff_not]
        by_cases h1 : (strings.TrimSpace t).head? = some 39
        · exact Or.inr (fun h2 => hnq ⟨h1, h2⟩)
        · exact Or.inl (Or.inr h1)
      have hcond : (strings.HasPrefix (strings.TrimSpace t) (go "\x27") &&
          strings.HasSuffix (strings.TrimSpace t) (go "\x27")) = false := by
        rw [HasPrefix_quote, HasSuffix_quote]
        simp only [Bool.and_eq_false_iff, decide_eq_false_iff_not]
        by_cases h1 : (strings.TrimSpace t).head? = some 39
        · exact Or.inr (fun h2 => hnq ⟨h1, h2⟩)
        · exact Or.inl h1
      have hfield := (field_of_mem header record _ hw hmem).1
      simp only [concatParts, hcond, Bool.false_eq_true, if_false, hfield, hrec, List.map_cons,
        List.flatten_cons, partText, hnotq, List.append_assoc]

theorem go_concat_source (inner : GoString) :
    go "$concat(" ++ inner ++ go ")" = go "$" ++ (go "concat(" ++ inner ++ go ")") := by
  have : go "$concat(" = go "$" ++ go "concat(" := by decide
  rw [this]; simp [List.append_assoc]

theorem evalSource_concat {F T : Type} (lib : Lib F T) (flags : Flags)
    (header record : List GoString) (tokens : List GoString)
    (hw : record.length = header.length) (hne : tokens ≠ [])
    (hcomma : ∀ t ∈ tokens, (44 : UInt8) ∉ t)
    (hparts : ∀ t ∈ tokens, isQuoted (strings.TrimSpace t) = true ∨
      (strings.TrimSpace t ∈ header ∧
        ¬ ((strings.TrimSpace t).head? = some 39 ∧
          (strings.TrimSpace t).getLast? = some 39))) :
    rawValue lib flags (makeNameIndex header) record
        (go "concat(" ++ strings.Join tokens 44 ++ go ")")
      = .ok ((tokens.map (fun t => partText header record (strings.TrimSpace t))).flatten) ∧
    evalSource lib flags (makeNameIndex header) record
        (.str (go "$concat(" ++ strings.Join tokens 44 ++ go ")"))
      = .ok (postProcess lib
          ((tokens.map (fun t => partText header record (strings.TrimSpace t))).flatten)) := by
  have hinner : slice (go "concat(" ++ strings.Join tokens 44 ++ go ")") 7
      (((go "concat(" ++ strings.Join tokens 44 ++ go ")").length : Int) - 1)
      = some (strings.Join tokens 44) :=
    slice_middle (go "concat(") (strings.Join tokens 44) (go ")")
  have hpre1 : strings.HasPrefix (go "concat(" ++ strings.Join tokens 44 ++ go ")")
      (go "hash(") = false := by
    rw [List.append_assoc, HasPrefix_append_left _ _ _ (by decide)]; decide
  have hpre2 : strings.HasPrefix (go "concat(" ++ strings.Join tokens 44 ++ go ")")
      (go "replace") = false := by
    rw [List.append_assoc, HasPrefix_append_left _ _ _ (by decide)]; decide
  have hpre3 : strings.HasPrefix (go "concat(" ++ strings.Join tokens 44 ++ go ")")
      (go "concat") = true := by
    rw [List.append_assoc, HasPrefix_append_left _ _ _ (by decide)]; decide
  have hraw : rawValue lib flags (makeNameIndex header) record
      (go "concat(" ++ strings.Join tokens 44 ++ go ")")
      = .ok ((tokens.map (fun t => partText header record (strings.TrimSpace t))).flatten) := by
    rw [rawValue, hpre1, hpre2, hpre3]
    simp only [Bool.false_eq_true, if_false, if_true, hinner, Split_Join 44 tokens hne hcomma,
      concatParts_of_parts header record hw tokens hparts, List.nil_append]
  refine ⟨hraw, ?_⟩
  rw [go_concat_source, evalSource_dollar, hraw]

theorem partText_tie (header record : List GoString)
    (hw : record.length = header.length) (p : GoString)
    (hpart : isQuoted p = true ∨
      (p ∈ header ∧ ¬ (p.head? = some 39 ∧ p.getLast? = some 39))) :
    (isQuoted p = true ∧ partText header record p = (p.drop 1).dropLast) ∨
    (isQuoted p = false ∧ ∃ i : Nat, header[i]? = some p ∧
      (∀ j, i < j → header[j]? ≠ some p) ∧
      record[i]? = some (partText header record p)) := by
  rcases hpart with hq | ⟨hmem, hnq⟩
  · exact Or.inl ⟨hq, by simp [partText, hq]⟩
  · have hnotq : isQuoted p = false := by
      simp only [isQuoted, Bool.and_eq_false_iff, decide_eq_false_iff_not]
      by_cases h1 : p.head? = some 39
      · exact Or.inr (fun h2 => hnq ⟨h1, h2⟩)
      · exact Or.inl (Or.inr h1)
    refine Or.inr ⟨hnotq, ?_⟩
    have h := (field_of_mem header record p hw hmem).2
    simpa [partText, hnotq] using h

theorem concat_x_col_bang {F T : Type} (lib : Lib F T) (flags : Flags)
    (header record : List GoString) (hw : record.length = header.length) (i : Nat)
    (hi : header[i]? = some (go "col"))
    (hlast : ∀ j, i < j → header[j]? ≠ some (go "col"))
    (hrec : record[i]? = some (go "5")) :
    evalSource lib flags (makeNameIndex header) record
        (.str (go "$concat(\x27x=\x27,col,\x27!\x27)")) = .ok (.str (go "x=5!")) := by
  have hmem : go "col" ∈ header := List.getElem?_mem hi
  have hsrc : go "$concat(\x27x=\x27,col,\x27!\x27)"
      = go "$concat(" ++ strings.Join [go "\x27x=\x27", go "col", go "\x27!\x27"] 44
        ++ go ")" := by decide
  have ht1 : strings.TrimSpace (go "\x27x=\x27") = go "\x27x=\x27" := by decide
  have ht2 : strings.TrimSpace (go "col") = go "col" := by decide
  have ht3 : strings.TrimSpace (go "\x27!\x27") = go "\x27!\x27" := by decide
  have hq1 : isQuoted (go "\x27x=\x27") = true := by decide
  have hq2 : isQuoted (go "col") = false := by decide
  have hq3 : isQuoted (go "\x27!\x27") = true := by decide
  have hparts : ∀ t ∈ [go "\x27x=\x27", go "col", go "\x27!\x27"],
      isQuoted (strings.TrimSpace t) = true ∨
      (strings.TrimSpace t ∈ header ∧
        ¬ ((strings.TrimSpace t).head? = some 39 ∧
          (strings.TrimSpace t).getLast? = some 39)) := by
    intro t ht
    simp only [List.mem_cons, List.mem_singleton, List.not_mem_nil, or_false] at ht
    rcases ht with rfl | rfl | rfl
    · exact Or.inl (by decide)
    · right
      rw [ht2]
      exact ⟨hmem, by decide⟩
    · exact Or.inl (by decide)
  obtain ⟨f, hf, hfield⟩ := field_of_header header record (go "col") i hw hi hlast
  have hf5 : f = go "5" := by
    rw [hrec] at hf
    exact (Option.some.inj hf).symm
  have hraw : rawField header record (go "col") = go "5" := by
    simp [rawField, hfield, hf5]
  have hval : ([go "\x27x=\x27", go "col", go "\x27!\x27"].map
      (fun t => partText header record (strings.TrimSpace t))).flatten = go "x=5!" := by
    simp only [List.map_cons, List.map_nil, ht1, ht2, ht3, partText, hq1, hq2, hq3, hraw,
      if_true, Bool.false_eq_true, if_false, List.flatten_cons, List.flatten_nil,
      List.append_nil]
    decide
  have hpost : postProcess lib (go "x=5!") = .str (go "x=5!") := by
    have htrim : strings.TrimSpace (go "x=5!") = go "x=5!" := by decide
    have hne : go "x=5!" ≠ [] := by decide
    have hE : strings.Contains (go "x=5!") (go "E") = false := by decide
    simp [postProcess, htrim, hne, hE]
  rw [hsrc, (evalSource_concat lib flags header record _ hw (by decide) (by decide) hparts).2,
    hval, hpost]

/-- C9 as amended: for a header, a data row of the same width and a non-empty list of
parts without comma, each of which, trimmed, is a single-quoted literal or else a name
of the header, the text that `$concat(p1,...,pn)` computes is the texts of the parts
put end to end in their order and the output is that text post-processed.  The text of
a literal is the part without its two quotes; the text of a name is the field of the
row at the last header position of that name.  On a row whose field for `col` is `5`,
`$concat('x=',col,'!')` yields exactly the text `x=5!`. -/
theorem concat_value {F T : Type} (lib : Lib F T) (flags : Flags)
    (header record : List GoString) (tokens : List GoString)
    (hw : record.length = header.length) (hne : tokens ≠ [])
    (hcomma : ∀ t ∈ tokens, (44 : UInt8) ∉ t)
    (hparts : ∀ t ∈ tokens, isQuoted (strings.TrimSpace t) = true ∨
      (strings.TrimSpace t ∈ header ∧
        ¬ ((strings.TrimSpace t).head? = some 39 ∧
          (strings.TrimSpace t).getLast? = some 39))) :
    rawValue lib flags (makeNameIndex header) record
        (go "concat(" ++ strings.Join tokens 44 ++ go ")")
      = .ok ((tokens.map (fun t => partText header record (strings.TrimSpace t))).flatten) ∧
    evalSource lib flags (makeNameIndex header) record
        (.str (go "$concat(" ++ strings.Join tokens 44 ++ go ")"))
      = .ok (postProcess lib
          ((tokens.map (fun t => partText header record (strings.TrimSpace t))).flatten)) ∧
    (∀ t ∈ tokens,
      (isQuoted (strings.TrimSpace t) = true ∧
        partText header record (strings.TrimSpace t)
          = ((strings.TrimSpace t).drop 1).dropLast) ∨
      (isQuoted (strings.TrimSpace t) = false ∧
        ∃ i : Nat, header[i]? = some (strings.TrimSpace t) ∧
          (∀ j, i < j → header[j]? ≠ some (strings.TrimSpace t)) ∧
          record[i]? = some (partText header record (strings.TrimSpace t)))) ∧
    (∀ i : Nat, header[i]? = some (go "col") →
      (∀ j, i < j → header[j]? ≠ some (go "col")) → record[i]? = some (go "5") →
      evalSource lib flags (makeNameIndex header) record
        (.str (go "$concat(\x27x=\x27,col,\x27!\x27)")) = .ok (.str (go "x=5!"))) := by
  obtain ⟨hraw, heval⟩ := evalSource_concat lib flags header record tokens hw hne hcomma hparts
  refine ⟨hraw, heval, ?_, ?_⟩
  · intro t ht
    exact partText_tie header record hw _ (hparts t ht)
  · intro i hi hlast hrec
    exact concat_x_col_bang lib flags header record hw i hi hlast hrec

/-- C9 witness: header `[a, col]`, row `[1, 5]`, parts `'x='`, `col`, `'!'`: the output
is the text `x=5!`. -/
theorem concat_value_witness :
    ([go "1", go "5"].length = [go "a", go "col"].length ∧
      [go "\x27x=\x27", go "col", go "\x27!\x27"] ≠ [] ∧
      (∀ t ∈ [go "\x27x=\x27", go "col", go "\x27!\x27"], (44 : UInt8) ∉ t) ∧
      (∀ t ∈ [go "\x27x=\x27", go "col", go "\x27!\x27"],
        isQuoted (strings.TrimSpace t) = true ∨
        (strings.TrimSpace t ∈ [go "a", go "col"] ∧
          ¬ ((strings.TrimSpace t).head? = some 39 ∧
            (strings.TrimSpace t).getLast? = some 39))) ∧
      [go "1", go "5"][1]? = some (go "5")) ∧
    evalSource sampleLib (sampleFlags 3) (makeNameIndex [go "a", go "col"]) [go "1", go "5"]
        (.str (go "$concat(" ++
          strings.Join [go "\x27x=\x27", go "col", go "\x27!\x27"] 44 ++ go ")"))
      = .ok (.str (go "x=5!")) :=
  ⟨⟨by decide, by decide, by decide, by decide, by decide⟩,
    (concat_value sampleLib (sampleFlags 3) [go "a", go "col"] [go "1", go "5"]
      [go "\x27x=\x27", go "col", go "\x27!\x27"] (by decide) (by decide) (by decide)
      (by decide)).2.1.trans (by decide)⟩

/-- C9 counterexample: a quoted literal that contains a comma is cut at the comma
before the quotes are looked at.  On header `[a, col]` and row `[1, 5]`, the source
`$concat(a,', ',col)` does not yield `1, 5`: its second part is the single quote alone
and the evaluation panics on the slice bounds; `$concat('x,y')` panics on the unknown
column `'x`. -/
theorem concat_literal_with_comma_panics :
    evalSource sampleLib (sampleFlags 3) (makeNameIndex [go "a", go "col"]) [go "1", go "5"]
        (.str (go "$concat(a,\x27, \x27,col)")) = .error .sliceBounds ∧
    evalSource sampleLib (sampleFlags 3) (makeNameIndex [go "a", go "col"]) [go "1", go "5"]
        (.str (go "$concat(\x27x,y\x27)")) = .error (.unknownColumn (go "\x27x")) := by
  decide

/-- On a row where `col` is `5`, `$concat('x=',col,'!')` yields exactly the text `x=5!`,
also with blanks around the parts. -/
theorem concat_value_example :
    go "$concat(" ++ strings.Join [go "\x27x=\x27", go "col", go "\x27!\x27"] 44 ++ go ")"
      = go "$concat(\x27x=\x27,col,\x27!\x27)" ∧
    evalSource sampleLib (sampleFlags 3) (makeNameIndex [go "a", go "col"]) [go "1", go "5"]
        (.str (go "$concat(\x27x=\x27,col,\x27!\x27)")) = .ok (.str (go "x=5!")) ∧
    evalSource sampleLib (sampleFlags 3) (makeNameIndex [go "a", go "col"]) [go "1", go "5"]
        (.str (go "$concat( \x27x=\x27, col ,\x27!\x27 )")) = .ok (.str (go "x=5!")) := by
  decide

/-- The method `close` assigns to no field of the sink: the handles and the count
after `close()` are those before it, whatever the database answers. -/
theorem close_keeps_state {F T : Type} (m : MSInsert F T) :
    m.close.1.stmt = m.stmt ∧ m.close.1.tnx = m.tnx ∧ m.close.1.bulkCount = m.bulkCount := by
  obtain ⟨⟨l, fails⟩, tnx, tn, cms, stmt, sql, cn, bc⟩ := m
  cases stmt <;> cases tnx <;>
    simp only [MSInsert.close, MSInsert.bulkCommit, DB.call]
  all_goals try simp
  all_goals try (split_ifs <;> simp)
  all_goals try (split_ifs <;> simp)
  all_goals try (split_ifs <;> simp)

/-- On a sink without handles, `close()` makes no call and returns no error. -/
theorem close_absent {F T : Type} (m : MSInsert F T) (hs : m.stmt = none)
    (ht : m.tnx = none) : m.close = (m, .ok) := by
  obtain ⟨⟨l, fails⟩, tnx, tn, cms, stmt, sql, cn, bc⟩ := m
  simp only at hs ht
  subst hs ht
  simp [MSInsert.close]

/-- C10 as amended: a batched sink with threshold `t ≥ 1`, no date-selected column and a
database that never fails.  At creation the sink has no transaction handle, no
statement and a count of zero.  After every number `k` of accepts the count is
`k % t`, and the sink has no transaction handle and no statement exactly when
`k % t = 0`, that is at creation and right after each flush that the threshold
triggers.  On such a sink `close()` makes no call and returns no error.  The method
`close()` itself never changes the handles or the count. -/
theorem sink_state_absent_after_threshold_flush {F T : Type} (lib : Lib F T)
    (flags : Flags) (db : DB F T) (tableName : GoString) (cms : List (ColumnMapping F T))
    (t : Nat) (rows : List (List (Value F T)))
    (ht0 : 1 ≤ t) (hlimit : flags.bulkLimit = (t : Int))
    (ht : (t : Int) < 9223372036854775808) (hdb : db.NeverFails)
    (hno : ∀ cm ∈ cms, isDateColumn flags cm.target = false)
    (hrows : ∀ r ∈ rows, r.length ≤ cms.length) :
    ((MSInsert.new db tableName cms).stmt = none ∧ (MSInsert.new db tableName cms).tnx = none ∧
      (MSInsert.new db tableName cms).bulkCount = 0) ∧
    (∀ k, k ≤ rows.length →
      ∃ mk, MSInsert.bulkInsertAll lib flags (MSInsert.new db tableName cms) (rows.take k)
          = (mk, .ok) ∧
        mk.bulkCount = ((k % t : Nat) : Int) ∧
        (mk.stmt = none ↔ k % t = 0) ∧ (mk.tnx = none ↔ k % t = 0) ∧
        (k % t = 0 → mk.close = (mk, .ok)) ∧
        mk.close.1.stmt = mk.stmt ∧ mk.close.1.tnx = mk.tnx ∧
        mk.close.1.bulkCount = mk.bulkCount) := by
  refine ⟨⟨rfl, rfl, rfl⟩, ?_⟩
  intro k hk
  obtain ⟨mk, hrun, hinv⟩ := bulkInsertAll_pending lib flags db tableName cms t hdb hlimit
    ht0 ht hno (rows.take k) (fun r h => hrows r (List.mem_of_mem_take h)) db.log _
    (new_pending db tableName cms)
  have hlen : (rows.take k).length = k := by rw [List.length_take, Nat.min_eq_left hk]
  rw [hlen] at hinv
  have hs : mk.stmt = none ↔ k % t = 0 := by
    rw [hinv.stmt]; by_cases h : k % t = 0 <;> simp [h]
  have htx : mk.tnx = none ↔ k % t = 0 := by
    rw [hinv.tnx]; by_cases h : k % t = 0 <;> simp [h]
  refine ⟨mk, hrun, hinv.bulkCount, hs, htx, ?_, close_keeps_state mk⟩
  intro h0
  exact close_absent mk (hs.2 h0) (htx.2 h0)

/-- C10 witness: threshold 3 and 7 rows of one value. -/
theorem sink_state_absent_after_threshold_flush_witness :
    (1 ≤ 3 ∧ (sampleFlags 3).bulkLimit = ((3 : Nat) : Int) ∧ sampleDB.NeverFails) ∧
    ∃ mk, MSInsert.bulkInsertAll sampleLib (sampleFlags 3)
          (MSInsert.new sampleDB (go "t") [⟨.str (go "$a"), go "x"⟩])
          (((List.range 7).map (fun i => [.int i])).take 6) = (mk, .ok) ∧
        mk.bulkCount = ((6 % 3 : Nat) : Int) ∧
        (mk.stmt = none ↔ 6 % 3 = 0) ∧ (mk.tnx = none ↔ 6 % 3 = 0) ∧
        (6 % 3 = 0 → mk.close = (mk, .ok)) ∧
        mk.close.1.stmt = mk.stmt ∧ mk.close.1.tnx = mk.tnx ∧
        mk.close.1.bulkCount = mk.bulkCount :=
  ⟨⟨by decide, rfl, fun _ _ => rfl⟩,
    (sink_state_absent_after_threshold_flush sampleLib (sampleFlags 3) sampleDB (go "t")
      [⟨.str (go "$a"), go "x"⟩] 3 ((List.range 7).map (fun i => [.int i]))
      (by decide) rfl (by decide) (fun _ _ => rfl) (by decide) (by decide)).2 6 (by decide)⟩

/-- C10 counterexample: threshold 3, one accepted row, then `close()`.  The close has
flushed and committed, and the sink still holds its statement, its transaction handle
and the count 1: the state is not absent after a flush that `close()` triggers. -/
theorem close_does_not_reset_state :
    ((sampleSink.bulkInsert sampleLib (sampleFlags 3) [.int 0]).1.close).2 = .ok ∧
    ((sampleSink.bulkInsert sampleLib (sampleFlags 3) [.int 0]).1.close).1.db.log =
      [.begin, .prepare (.copyIn (go "t") [go "x"]), .exec [.int 0],
        .exec [], .stmtClose, .commit] ∧
    ((sampleSink.bulkInsert sampleLib (sampleFlags 3) [.int 0]).1.close).1.stmt = some () ∧
    ((sampleSink.bulkInsert sampleLib (sampleFlags 3) [.int 0]).1.close).1.tnx = some () ∧
    ((sampleSink.bulkInsert sampleLib (sampleFlags 3) [.int 0]).1.close).1.bulkCount = 1 := by
  decide

theorem mem_of_slice (s x : GoString) (lo hi : Int) (h : slice s lo hi = some x) :
    ∀ b ∈ x, b ∈ s := by
  unfold slice at h
  split at h
  · simp only [Option.some.injEq] at h
    subst h
    intro b hb
    exact List.mem_of_mem_drop (List.mem_of_mem_take hb)
  · cases h

/-- A source `$replace...` whose name has no comma never reads a column: whatever the
header and the row, the evaluation panics, on the slice bounds for a name of fewer than
9 bytes and else on the number of arguments. -/
theorem replace_prefix_without_comma_panics {F T : Type} (lib : Lib F T) (flags : Flags)
    (ni : NameIndex) (record : List GoString) (rest : GoString)
    (hcomma : (44 : UInt8) ∉ rest) :
    evalSource lib flags ni record (.str (go "$" ++ (go "replace" ++ rest)))
        = .error .sliceBounds ∨
      evalSource lib flags ni record (.str (go "$" ++ (go "replace" ++ rest)))
        = .error .replaceArity := by
  have hpre1 : strings.HasPrefix (go "replace" ++ rest) (go "hash(") = false := by
    rw [HasPrefix_append_left _ _ _ (by decide)]; decide
  have hpre2 : strings.HasPrefix (go "replace" ++ rest) (go "replace") = true :=
    HasPrefix_append _ _
  have hname : (44 : UInt8) ∉ go "replace" ++ rest := by
    intro h
    rcases List.mem_append.1 h with h | h
    · revert h; decide
    · exact hcomma h
  rw [evalSource_dollar, rawValue, hpre1, hpre2]
  simp only [Bool.false_eq_true, if_false, if_true]
  cases hs : slice (go "replace" ++ rest) 8 (((go "replace" ++ rest).length : Int) - 1) with
  | none => exact Or.inl rfl
  | some inner =>
    right
    have hinner : (44 : UInt8) ∉ inner := fun h => hname (mem_of_slice _ _ _ _ hs 44 h)
    simp only [Split_of_not_mem 44 inner hinner]

/-- A source `$concat...` whose name has at least 8 bytes and no comma after the
seventh is evaluated as a call of `concat` on the bytes between the seventh and the
last: the column read, if any, is the one named by these bytes, not the one named by
the whole name. -/
theorem concat_prefix_reads_inner {F T : Type} (lib : Lib F T) (flags : Flags)
    (ni : NameIndex) (record : List GoString) (c last : UInt8) (mid : GoString)
    (hcomma : (44 : UInt8) ∉ mid) :
    rawValue lib flags ni record (go "concat" ++ [c] ++ mid ++ [last])
      = concatParts ni record [mid] [] := by
  have hpre1 : strings.HasPrefix (go "concat" ++ [c] ++ mid ++ [last]) (go "hash(") = false := by
    rw [List.append_assoc, List.append_assoc, HasPrefix_append_left _ _ _ (by decide)]; decide
  have hpre2 : strings.HasPrefix (go "concat" ++ [c] ++ mid ++ [last]) (go "replace")
      = false := by
    rw [List.append_assoc, List.append_assoc]
    have e : go "concat" = [99, 111, 110, 99, 97, 116] := by decide
    have e2 : go "replace" = [114, 101, 112, 108, 97, 99, 101] := by decide
    rw [e, e2]
    simp [strings.HasPrefix, List.isPrefixOf]
  have hpre3 : strings.HasPrefix (go "concat" ++ [c] ++ mid ++ [last]) (go "concat") = true := by
    rw [List.append_assoc, List.append_assoc]; exact HasPrefix_append _ _
  have hslice : slice (go "concat" ++ [c] ++ mid ++ [last]) 7
      (((go "concat" ++ [c] ++ mid ++ [last]).length : Int) - 1) = some mid := by
    have h := slice_middle (go "concat" ++ [c]) mid [last]
    have hl : ((go "concat" ++ [c]).length : Int) = 7 := by
      have : (go "concat").length = 6 := by decide
      simp [this]
    rw [hl] at h
    simpa using h
  rw [rawValue, hpre1, hpre2, hpre3]
  simp only [Bool.false_eq_true, if_false, if_true, hslice, Split_of_not_mem 44 mid hcomma]

/-- C11: the header names `replacement_id` and `concat_key` are not read as plain column
references.  On a row of header width, `$replacement_id` panics with "need 3 parameters
for replace", so that a migration with this mapping writes nothing; `$concat_key`
panics with "unable to find column ke", and when the header also has a column `ke` it
yields the field of `ke` instead of its own.  The name `hash_key`, which begins with
`hash` without the parenthesis, is read as a plain column reference. -/
theorem replace_concat_prefix_without_parenthesis :
    evalSource sampleLib (sampleFlags 3) (makeNameIndex [go "replacement_id"]) [go "7"]
        (.str (go "$replacement_id")) = .error .replaceArity ∧
    (CSVMigration.migrate sampleLib (sampleFlags 3)
        { insertor := MSInsert.new sampleDB (go "t") [⟨.str (go "$replacement_id"), go "x"⟩],
          r := NewReader [[go "replacement_id"], [go "7"]],
          columnMappings := [⟨.str (go "$replacement_id"), go "x"⟩] } false).2
      = .panic .replaceArity ∧
    (CSVMigration.migrate sampleLib (sampleFlags 3)
        { insertor := MSInsert.new sampleDB (go "t") [⟨.str (go "$replacement_id"), go "x"⟩],
          r := NewReader [[go "replacement_id"], [go "7"]],
          columnMappings := [⟨.str (go "$replacement_id"), go "x"⟩] } false).1.db.log = [] ∧
    evalSource sampleLib (sampleFlags 3) (makeNameIndex [go "concat_key"]) [go "7"]
        (.str (go "$concat_key")) = .error (.unknownColumn (go "ke")) ∧
    evalSource sampleLib (sampleFlags 3) (makeNameIndex [go "concat_key", go "ke"])
        [go "7", go "8"] (.str (go "$concat_key")) = .ok (.str (go "8")) ∧
    evalSource sampleLib (sampleFlags 3) (makeNameIndex [go "hash_key"]) [go "7"]
        (.str (go "$hash_key")) = .ok (.str (go "7")) := by
  decide

end DbMigrate
